import Mathlib

/-!
Shallow embedding of `src/fix_photo_metadata.py` (class `PhotoMetadataFixer`
and `main`).  The operating-system file system is modelled as a partial map
from path strings to file values (content identifier, size, modification
time); console output and the `stats['errors']` list are tracked explicitly
in the run state.  Wall-clock timestamps prefixed to log lines by
`PhotoMetadataFixer.log` are omitted (they are real-time data); log lines
are modelled as `LEVEL: message`.  The macOS-only `SetFile` shell call in
`set_file_timestamps` is outside the file-system model (the model
corresponds to a non-darwin platform, where that branch is skipped).
-/

namespace FixPhoto

/-- A parsed `datetime` value (seconds are always 0 for the format used). -/
structure PDate where
  year : Nat
  month : Nat
  day : Nat
  hour : Nat
  minute : Nat
deriving DecidableEq, Repr

/-! ### `datetime.strptime` for the fixed format `%Y %I:%M %p`

CPython's `_strptime` compiles the format to a regex:
`%Y` → `\d\d\d\d`, a space → `\s+`, `%I` → `1[0-2]|0[1-9]|[1-9]`,
`%M` → `[0-5]\d|\d`, `%p` → `AM|PM` (case-insensitive), and the whole
input must be consumed.  The alternations below are deterministic; this
is equivalent to the regex because each two-digit alternative is always
followed by a non-digit format token (`:` or whitespace), so the
one-digit fallback can never rescue a failed longer match. -/

def digitVal (c : Char) : Nat := c.toNat - 48

/-- Python `s.split(sep)` for a one-character separator (the only form
the script uses: `split(',')`). -/
def splitOnChar (sep : Char) (cs : List Char) : List (List Char) :=
  cs.foldr
    (fun c acc =>
      if c = sep then [] :: acc
      else (c :: acc.headD []) :: acc.tail)
    [[]]

/-- Python `s.strip()`: drop whitespace from both ends. -/
def trimChars (cs : List Char) : List Char :=
  ((cs.dropWhile Char.isWhitespace).reverse.dropWhile Char.isWhitespace).reverse

/-- Python `s.replace(' GMT', '')`: delete every (non-overlapping,
left-to-right) occurrence of the four characters `" GMT"`. -/
def removeGMT : List Char → List Char
  | ' ' :: 'G' :: 'M' :: 'T' :: rest => removeGMT rest
  | c :: rest => c :: removeGMT rest
  | [] => []

/-- Exactly `k` decimal digits, returning their value and the rest. -/
def pExactDigits (k : Nat) (cs : List Char) : Option (Nat × List Char) :=
  let pre := cs.take k
  if pre.length = k ∧ pre.all Char.isDigit then
    some (pre.foldl (fun a c => 10 * a + digitVal c) 0, cs.drop k)
  else none

/-- One or more whitespace characters (the `\s+` a format-space becomes). -/
def pSpaces1 : List Char → Option (List Char)
  | [] => none
  | c :: rest =>
      if c.isWhitespace then some (rest.dropWhile Char.isWhitespace) else none

/-- A literal character of the format. -/
def pLit (c : Char) : List Char → Option (List Char)
  | [] => none
  | c' :: rest => if c' = c then some rest else none

/-- `%I`: `1[0-2]|0[1-9]|[1-9]`. -/
def pHour12 : List Char → Option (Nat × List Char)
  | [] => none
  | [c] => if c.isDigit ∧ c ≠ '0' then some (digitVal c, []) else none
  | c1 :: c2 :: rest =>
      if c1 = '1' ∧ (c2 = '0' ∨ c2 = '1' ∨ c2 = '2') then
        some (10 + digitVal c2, rest)
      else if c1 = '0' ∧ c2.isDigit ∧ c2 ≠ '0' then
        some (digitVal c2, rest)
      else if c1.isDigit ∧ c1 ≠ '0' then
        some (digitVal c1, c2 :: rest)
      else none

/-- `%M`: `[0-5]\d|\d`. -/
def pMinute : List Char → Option (Nat × List Char)
  | [] => none
  | [c] => if c.isDigit then some (digitVal c, []) else none
  | c1 :: c2 :: rest =>
      if ('0' ≤ c1 ∧ c1 ≤ '5') ∧ c2.isDigit then
        some (10 * digitVal c1 + digitVal c2, rest)
      else if c1.isDigit then some (digitVal c1, c2 :: rest)
      else none

/-- `%p`: `AM` or `PM`, case-insensitively; `true` means PM. -/
def pAmPm : List Char → Option (Bool × List Char)
  | a :: b :: rest =>
      if (a = 'A' ∨ a = 'a') ∧ (b = 'M' ∨ b = 'm') then some (false, rest)
      else if (a = 'P' ∨ a = 'p') ∧ (b = 'M' ∨ b = 'm') then some (true, rest)
      else none
  | _ => none

/-- 12-hour clock to 24-hour clock, as `_strptime` does it. -/
def to24Hour (h12 : Nat) (pm : Bool) : Nat :=
  if pm then (if h12 = 12 then 12 else h12 + 12)
  else (if h12 = 12 then 0 else h12)

/-- `datetime.strptime(s, "%Y %I:%M %p")`; unmatched fields default to
month 1, day 1.  `datetime` requires `year ≥ 1`. -/
def strptimeYIMp (s : List Char) : Option PDate :=
  match pExactDigits 4 s with
  | none => none
  | some (y, cs) =>
    match pSpaces1 cs with
    | none => none
    | some cs =>
      match pHour12 cs with
      | none => none
      | some (h, cs) =>
        match pLit ':' cs with
        | none => none
        | some cs =>
          match pMinute cs with
          | none => none
          | some (mi, cs) =>
            match pSpaces1 cs with
            | none => none
            | some cs =>
              match pAmPm cs with
              | none => none
              | some (pm, cs) =>
                if cs = [] ∧ 1 ≤ y then
                  some ⟨y, 1, 1, to24Hour h pm, mi⟩
                else none

/-- `PhotoMetadataFixer.parse_apple_date`:
`date_string.split(',')[1].strip().replace(' GMT', '')` followed by
`datetime.strptime(date_part, '%Y %I:%M %p')`; any exception is caught,
one ERROR line is logged, and `None` is returned.  The result is the
parsed date (or `none`) together with the console lines printed. -/
def parse_apple_date (date_string : String) : Option PDate × List String :=
  match (splitOnChar ',' date_string.toList).get? 1 with
  | none =>
      (none, ["ERROR: Error parsing date " ++ date_string])
  | some part =>
      let date_part := removeGMT (trimChars part)
      match strptimeYIMp date_part with
      | some d => (some d, [])
      | none => (none, ["ERROR: Error parsing date " ++ date_string])

/-- Python `int(s)` on a CSV field: optional surrounding whitespace,
optional sign, then one or more decimal digits (digit-group underscores
are not modelled). -/
def pyInt (s : String) : Option Int :=
  match trimChars s.toList with
  | '-' :: ds =>
      if ds ≠ [] ∧ ds.all Char.isDigit then
        some (-(ds.foldl (fun a c => 10 * a + digitVal c) 0 : Nat))
      else none
  | '+' :: ds =>
      if ds ≠ [] ∧ ds.all Char.isDigit then
        some ((ds.foldl (fun a c => 10 * a + digitVal c) 0 : Nat))
      else none
  | ds =>
      if ds ≠ [] ∧ ds.all Char.isDigit then
        some ((ds.foldl (fun a c => 10 * a + digitVal c) 0 : Nat))
      else none

/-! ### File-system model -/

/-- A regular file: opaque content identifier, `st_size`, and the
modification time a successful `os.utime` / `shutil.copy2` leaves. -/
structure FileVal where
  content : Nat
  size : Nat
  mtime : Option PDate
deriving DecidableEq, Repr

/-- The operating-system file system: a partial map from paths to files. -/
def FS : Type := String → Option FileVal

/-- Writing a file (`open(...,'w')` target, `shutil.copy2` destination,
or the in-place effect of `os.utime`). -/
def fsSet (fs : FS) (p : String) (v : FileVal) : FS :=
  fun q => if q = p then some v else fs q

/-- `os.utime(path, (t, t))`: raises (`none`) when the path is absent. -/
def fsUtime (fs : FS) (p : String) (d : PDate) : Option FS :=
  match fs p with
  | none => none
  | some v => some (fsSet fs p { v with mtime := some d })

/-- `shutil.copy2(src, dst)`: copies content and metadata; raises
(`none`) when the source is absent. -/
def fsCopy (fs : FS) (src dst : String) : Option FS :=
  match fs src with
  | none => none
  | some v => some (fsSet fs dst v)

/-! ### Run state (`PhotoMetadataFixer.__init__`) -/

/-- One record of `self.processed_files`. -/
structure FileInfo where
  path : String
  name : String
  checksum : String
  favorite : Bool
  hidden : Bool
  deleted : Bool
  original_date : Option PDate
  view_count : Int
  size : Nat
deriving DecidableEq, Repr

/-- `self.stats`. -/
structure Stats where
  files_processed : Nat
  timestamps_fixed : Nat
  duplicates_found : Nat
  deleted_files : Nat
  favorites : Nat
  hidden_files : Nat
  errors : List String
deriving DecidableEq, Repr

def initStats : Stats := ⟨0, 0, 0, 0, 0, 0, []⟩

/-- The whole mutable state of one run: the file system, `self.stats`,
`self.duplicates` (a `defaultdict(list)` keyed by checksum, in insertion
order), `self.processed_files`, and the console output so far. -/
structure RunState where
  fs : FS
  stats : Stats
  duplicates : List (String × List FileInfo)
  processed_files : List FileInfo
  log : List String

def addLog (st : RunState) (line : String) : RunState :=
  { st with log := st.log ++ [line] }

/-- An error path: `self.log(msg, 'ERROR')` then
`self.stats['errors'].append(msg)`. -/
def addError (st : RunState) (msg : String) : RunState :=
  { st with log := st.log ++ ["ERROR: " ++ msg],
            stats := { st.stats with errors := st.stats.errors ++ [msg] } }

/-- `Path(p).name`: the last `/`-separated component. -/
def baseName (p : String) : String :=
  String.mk ((splitOnChar '/' p.toList).getLastD [])

/-- `PhotoMetadataFixer.set_file_timestamps`.  Returns the boolean result
and the updated state.  In dry-run mode it only logs; otherwise it calls
`os.utime`, whose failure is caught, logged and appended to
`stats['errors']`. -/
def set_file_timestamps (dry_run : Bool) (st : RunState) (file_path : String)
    (creation_date : Option PDate) : Bool × RunState :=
  match creation_date with
  | none => (false, st)
  | some d =>
      if dry_run then
        (true, addLog st ("INFO: DRY RUN: Would set " ++ file_path ++ " timestamp"))
      else
        match fsUtime st.fs file_path d with
        | some fs' =>
            (true, addLog { st with fs := fs' }
              ("INFO: Fixed timestamp for " ++ baseName file_path))
        | none =>
            (false, addError st ("Failed to set timestamp for " ++ file_path))

/-! ### CSV rows and `process_csv_file` -/

/-- One row of `csv.DictReader`; a `none` field models a key missing from
the CSV header, so that `row[...]` raises `KeyError`. -/
structure Row where
  imgName : Option String
  fileChecksum : Option String
  favorite : Option String
  hidden : Option String
  deleted : Option String
  originalCreationDate : Option String
  viewCount : Option String
deriving DecidableEq, Repr

/-- The values the per-row code binds before touching the file system. -/
structure RowData where
  img_name : String
  file_checksum : String
  favorite : Bool
  hidden : Bool
  deleted : Bool
  original_date : Option PDate
  view_count : Int
deriving DecidableEq, Repr

def keyErrMsg (field : String) : String := "KeyError: " ++ field

def intErrMsg (s : String) : String :=
  "invalid literal for int() with base 10: " ++ s

/-- Field extraction of one row, in source order: `imgName`,
`fileChecksum`, `favorite`, `hidden`, `deleted`, `originalCreationDate`
(whose parse may print an ERROR line but never raises), then
`int(row['viewCount'])`.  The second component is the console output the
extraction produced before succeeding or raising; a raised exception is
returned as `.error` with its message. -/
def extractRow (row : Row) : Except String RowData × List String :=
  match row.imgName with
  | none => (.error (keyErrMsg "imgName"), [])
  | some img_name =>
    match row.fileChecksum with
    | none => (.error (keyErrMsg "fileChecksum"), [])
    | some file_checksum =>
      match row.favorite with
      | none => (.error (keyErrMsg "favorite"), [])
      | some fav =>
        match row.hidden with
        | none => (.error (keyErrMsg "hidden"), [])
        | some hid =>
          match row.deleted with
          | none => (.error (keyErrMsg "deleted"), [])
          | some del =>
            match row.originalCreationDate with
            | none => (.error (keyErrMsg "originalCreationDate"), [])
            | some ocd =>
              let pr := parse_apple_date ocd
              match row.viewCount with
              | none => (.error (keyErrMsg "viewCount"), pr.2)
              | some vcs =>
                match pyInt vcs with
                | none => (.error (intErrMsg vcs), pr.2)
                | some vc =>
                    (.ok ⟨img_name, file_checksum, fav == "yes", hid == "yes",
                          del == "yes", pr.1, vc⟩, pr.2)

/-- `self.duplicates[file_checksum].append(file_info)` on a
`defaultdict(list)` held as an insertion-ordered association list. -/
def dupAdd (m : List (String × List FileInfo)) (k : String) (fi : FileInfo) :
    List (String × List FileInfo) :=
  match m with
  | [] => [(k, [fi])]
  | (k', l) :: rest =>
      if k' = k then (k', l ++ [fi]) :: rest else (k', l) :: dupAdd rest k fi

/-- The statistics increments of one catalogued row. -/
def catalogStats (s : Stats) (favorite hidden deleted : Bool) : Stats :=
  { s with
    files_processed := s.files_processed + 1,
    favorites := if favorite then s.favorites + 1 else s.favorites,
    hidden_files := if hidden then s.hidden_files + 1 else s.hidden_files,
    deleted_files := if deleted then s.deleted_files + 1 else s.deleted_files }

def bumpTimestampsFixed (s : Stats) : Stats :=
  { s with timestamps_fixed := s.timestamps_fixed + 1 }

/-- The `file_info` dict built for a catalogued row
(`size` is `file_path.stat().st_size`). -/
def mkFileInfo (photos_dir : String) (rd : RowData) (fv : FileVal) : FileInfo :=
  ⟨photos_dir ++ "/" ++ rd.img_name, rd.img_name, rd.file_checksum,
   rd.favorite, rd.hidden, rd.deleted, rd.original_date, rd.view_count,
   fv.size⟩

/-- Appending to `self.processed_files` and `self.duplicates`, and the
per-row statistics updates. -/
def catalogEntry (st : RunState) (fi : FileInfo) : RunState :=
  { st with
    processed_files := st.processed_files ++ [fi],
    duplicates := dupAdd st.duplicates fi.checksum fi,
    stats := catalogStats st.stats fi.favorite fi.hidden fi.deleted }

/-- `if original_date and self.set_file_timestamps(...):
stats['timestamps_fixed'] += 1`. -/
def fixRowTimestamp (dry_run : Bool) (st : RunState) (file_path : String) :
    Option PDate → RunState
  | none => st
  | some d =>
      let r := set_file_timestamps dry_run st file_path (some d)
      if r.1 then { r.2 with stats := bumpTimestampsFixed r.2.stats }
      else r.2

/-- The body of the row loop after field extraction: resolve the file,
skip (with a WARNING) when absent, otherwise catalog the entry, record
the duplicate, update the statistics, and fix the timestamp. -/
def processRowWith (dry_run : Bool) (photos_dir : String) (st : RunState)
    (rd : RowData) : RunState :=
  let file_path := photos_dir ++ "/" ++ rd.img_name
  match st.fs file_path with
  | none => addLog st ("WARNING: File not found: " ++ file_path)
  | some fv =>
      fixRowTimestamp dry_run (catalogEntry st (mkFileInfo photos_dir rd fv))
        file_path rd.original_date

/-- One iteration of the row loop; `some e` signals an exception escaping
to the `except` clause of `process_csv_file`, with the state mutations
performed before the raise already applied. -/
def processRow (dry_run : Bool) (photos_dir : String) (st : RunState)
    (row : Row) : RunState × Option String :=
  let er := extractRow row
  let st := { st with log := st.log ++ er.2 }
  match er.1 with
  | .error e => (st, some e)
  | .ok rd => (processRowWith dry_run photos_dir st rd, none)

/-- The row loop: a raised row exception aborts the remaining rows and is
caught by `process_csv_file`, which logs it and appends it to
`stats['errors']`. -/
def processRowsGo (dry_run : Bool) (csv_path photos_dir : String) :
    List Row → RunState → RunState
  | [], st => st
  | r :: rest, st =>
      match processRow dry_run photos_dir st r with
      | (st', none) => processRowsGo dry_run csv_path photos_dir rest st'
      | (st', some e) =>
          addError st' ("Error processing CSV " ++ csv_path ++ ": " ++ e)

/-- `PhotoMetadataFixer.process_csv_file`.  `content` is `.error e` when
`open`/`csv` fails to read the file at all, `.ok rows` otherwise. -/
def processCsvFile (dry_run : Bool) (csv_path : String)
    (content : Except String (List Row)) (photos_dir : String)
    (st : RunState) : RunState :=
  let st := addLog st ("INFO: Processing CSV: " ++ csv_path)
  match content with
  | .error e =>
      addError st ("Error processing CSV " ++ csv_path ++ ": " ++ e)
  | .ok rows => processRowsGo dry_run csv_path photos_dir rows st

/-! ### `find_duplicates`, `organize_by_date`, `generate_reports`,
`print_summary` -/

/-- `PhotoMetadataFixer.find_duplicates`: the checksum groups with more
than one member; also sets `stats['duplicates_found']` and logs the
groups when any exist. -/
def find_duplicates (st : RunState) :
    List (String × List FileInfo) × RunState :=
  let dups := st.duplicates.filter (fun kv => decide (1 < kv.2.length))
  let st := { st with stats := { st.stats with duplicates_found := dups.length } }
  let st :=
    if dups.isEmpty then st
    else
      { st with log := st.log ++
          [("INFO: Found " ++ toString dups.length ++ " sets of duplicate files:")] ++
          dups.flatMap (fun kv =>
            ("INFO:   Checksum " ++ kv.1 ++ ": " ++ toString kv.2.length ++ " files") ::
            kv.2.map (fun fi => "INFO:     - " ++ fi.path)) }
  (dups, st)

/-- `f"{date.month:02d}"`. -/
def pad2 (n : Nat) : String := if n < 10 then "0" ++ toString n else toString n

/-- `f"{date.year}/{date.month:02d}"`. -/
def yearMonth (d : PDate) : String := toString d.year ++ "/" ++ pad2 d.month

/-- The destination `output_dir / year_month / name` of one entry. -/
def targetPath (output_dir : String) (d : PDate) (name : String) : String :=
  output_dir ++ "/" ++ yearMonth d ++ "/" ++ name

/-- The loop of `organize_by_date` over `self.processed_files`: entries
without a date are skipped; in dry-run mode the copy is only logged;
otherwise `shutil.copy2` runs, and its failure (absent source) is an
uncaught exception, modelled as `none`. -/
def organizeGo (dry_run : Bool) (output_dir : String) :
    List FileInfo → RunState → Option RunState
  | [], st => some st
  | fi :: rest, st =>
      match fi.original_date with
      | none => organizeGo dry_run output_dir rest st
      | some d =>
          let target := targetPath output_dir d fi.name
          if dry_run then
            organizeGo dry_run output_dir rest
              (addLog st ("INFO: DRY RUN: Would move " ++ fi.path ++ " to " ++ target))
          else
            match fsCopy st.fs fi.path target with
            | none => none
            | some fs' =>
                organizeGo dry_run output_dir rest
                  (addLog { st with fs := fs' }
                    ("INFO: Copied " ++ fi.name ++ " to " ++ yearMonth d ++ "/"))

/-- `PhotoMetadataFixer.organize_by_date` (directory creation is not part
of the flat path-to-file model). -/
def organize_by_date (dry_run : Bool) (output_dir : String) (st : RunState) :
    Option RunState :=
  organizeGo dry_run output_dir st.processed_files
    (addLog st ("INFO: Organizing files by date in " ++ output_dir))

/-- `PhotoMetadataFixer.generate_reports`.  The returned list collects the
paths of the JSON files written (the derived document contents — year
counts, file-type counts, total size — are computed in both modes and
serialized only outside dry-run; only which files get written is
modelled).  `find_duplicates` runs in both modes. -/
def generate_reports (dry_run : Bool) (output_dir : String) (st : RunState) :
    RunState × List String :=
  let writes := if dry_run then [] else [output_dir ++ "/photo_statistics.json"]
  let fd := find_duplicates st
  let st := fd.2
  let writes := writes ++
    (if ¬ fd.1.isEmpty ∧ ¬ dry_run then [output_dir ++ "/duplicates.json"] else [])
  let favorites := st.processed_files.filter (fun f => f.favorite)
  let writes := writes ++
    (if ¬ favorites.isEmpty ∧ ¬ dry_run then [output_dir ++ "/favorites.json"] else [])
  let deleted := st.processed_files.filter (fun f => f.deleted)
  let writes := writes ++
    (if ¬ deleted.isEmpty ∧ ¬ dry_run then [output_dir ++ "/deleted_files.json"] else [])
  (addLog st ("INFO: Generated reports in " ++ output_dir), writes)

/-- `PhotoMetadataFixer.print_summary`: the summary lines, including the
total error count and the first 10 error messages. -/
def print_summary (st : RunState) : RunState :=
  let s := st.stats
  let lines :=
    ["INFO: === PROCESSING SUMMARY ===",
     "INFO: Files processed: " ++ toString s.files_processed,
     "INFO: Timestamps fixed: " ++ toString s.timestamps_fixed,
     "INFO: Duplicates found: " ++ toString s.duplicates_found,
     "INFO: Favorite files: " ++ toString s.favorites,
     "INFO: Hidden files: " ++ toString s.hidden_files,
     "INFO: Deleted files: " ++ toString s.deleted_files,
     "INFO: Errors: " ++ toString s.errors.length] ++
    (if s.errors.isEmpty then []
     else "INFO: Errors encountered:" ::
          (s.errors.take 10).map (fun e => "INFO:   - " ++ e))
  { st with log := st.log ++ lines }

/-! ### Directory discovery, `process_all_directories`, `main` -/

/-- Does `pat` occur as a contiguous sublist? -/
def hasSubstr (cs pat : List Char) : Bool :=
  match cs with
  | [] => pat.isEmpty
  | _ :: rest => pat.isPrefixOf cs || hasSubstr rest pat

/-- Python `pat in s`. -/
def strContains (s pat : String) : Bool := hasSubstr s.toList pat.toList

/-- The name filter of `process_all_directories`. -/
def dirNameMatches (name : String) : Bool :=
  strContains name "iCloud Fotos Teil" && strContains name "von 37"

deriving instance DecidableEq for Except

/-- One candidate item of `base_path.iterdir()`: its path, whether it is
a directory, whether it has a `Photos` subdirectory, and the CSV
metadata files found by `glob("Photo Details*.csv")` there (path plus
parsed rows, or the read error). -/
structure DirEntry where
  name : String
  isDir : Bool
  photosDirExists : Bool
  csvFiles : List (String × Except String (List Row))
deriving DecidableEq, Repr

/-- Stable insertion of `directories.sort()` (paths compare as strings). -/
def insertSorted (d : DirEntry) : List DirEntry → List DirEntry
  | [] => [d]
  | e :: rest =>
      if d.name < e.name then d :: e :: rest else e :: insertSorted d rest

def sortDirs (l : List DirEntry) : List DirEntry :=
  l.foldl (fun acc d => insertSorted d acc) []

/-- Per-directory body of `process_all_directories`: a missing `Photos`
subdirectory or an empty CSV list is a logged warning, not fatal. -/
def processDirectory (dry_run : Bool) (d : DirEntry) (st : RunState) : RunState :=
  if ¬ d.photosDirExists then
    addLog st ("WARNING: No Photos directory found in " ++ d.name)
  else if d.csvFiles.isEmpty then
    addLog st ("WARNING: No CSV files found in " ++ d.name ++ "/Photos")
  else
    d.csvFiles.foldl
      (fun st pc => processCsvFile dry_run pc.1 pc.2 (d.name ++ "/Photos") st) st

/-- `PhotoMetadataFixer.process_all_directories`. -/
def process_all_directories (dry_run : Bool) (items : List DirEntry)
    (st : RunState) : RunState :=
  let st := addLog st "INFO: Starting to process all directories..."
  let dirs := sortDirs (items.filter (fun d => d.isDir && dirNameMatches d.name))
  let st := addLog st ("INFO: Found " ++ toString dirs.length ++ " directories to process")
  let st := dirs.foldl (fun st d => processDirectory dry_run d st) st
  let st := addLog st "INFO: Finished processing all directories"
  print_summary st

/-- The parsed command line. -/
structure Args where
  path : String
  single_dir : Bool
  dry_run : Bool
  organize : Option String
  reports : Option String
deriving DecidableEq, Repr

/-- What `main` observes of the environment: whether the positional path
exists, the file system, and — depending on the mode — the single
directory's `Photos` subdirectory and CSV files, or the items of the
base directory. -/
structure Env where
  pathExists : Bool
  fs : FS
  photosDirExists : Bool
  csvFiles : List (String × Except String (List Row))
  items : List DirEntry

def initState (fs : FS) : RunState := ⟨fs, initStats, [], [], []⟩

/-- The fold over the CSV files of single-directory mode. -/
def processCsvFiles (dry_run : Bool) (photos_dir : String)
    (files : List (String × Except String (List Row))) (st : RunState) :
    RunState :=
  files.foldl (fun st pc => processCsvFile dry_run pc.1 pc.2 photos_dir st) st

/-- The tail of `main`: optional reports, then optional organize.  An
uncaught exception from `organize_by_date` terminates the interpreter
with a nonzero status. -/
def mainFinish (args : Args) (st : RunState) : Nat × Option RunState :=
  let st :=
    match args.reports with
    | none => st
    | some rdir => (generate_reports args.dry_run rdir st).1
  match args.organize with
  | none => (0, some st)
  | some odir =>
      match organize_by_date args.dry_run odir st with
      | some st' => (0, some st')
      | none => (1, none)

/-- `main`: exit status together with the final run state (absent when
the program aborts early or crashes). -/
def mainRun (args : Args) (env : Env) : Nat × Option RunState :=
  if ¬ env.pathExists then (1, none)
  else
    let st0 := initState env.fs
    if args.single_dir then
      if ¬ env.photosDirExists then (1, none)
      else if env.csvFiles.isEmpty then (1, none)
      else
        let st := processCsvFiles args.dry_run (args.path ++ "/Photos")
                    env.csvFiles st0
        mainFinish args (print_summary st)
    else
      mainFinish args (process_all_directories args.dry_run env.items st0)

/-! ### Derived definitions used by the verification -/

/-- Lookup in the checksum multimap (first binding wins; `dupAdd` keeps
keys unique, as a Python dict does). -/
def dupLookup : List (String × List FileInfo) → String → Option (List FileInfo)
  | [], _ => none
  | (k', l) :: rest, k => if k' = k then some l else dupLookup rest k

/-- All entries of `ps` carrying checksum `k`, in order. -/
def groupOf (ps : List (String × FileInfo)) (k : String) : List FileInfo :=
  (ps.filter (fun p => p.1 == k)).map Prod.snd

/-- The multimap obtained by the per-row
`self.duplicates[checksum].append(file_info)` calls, starting from `m`. -/
def buildDupFrom (m : List (String × List FileInfo))
    (ps : List (String × FileInfo)) : List (String × List FileInfo) :=
  ps.foldl (fun m p => dupAdd m p.1 p.2) m

/-- The multimap of a whole run (`self.duplicates` starts empty). -/
def buildDup (ps : List (String × FileInfo)) : List (String × List FileInfo) :=
  buildDupFrom [] ps

/-- What a file looks like apart from its modification time. -/
def valShape (v : FileVal) : Nat × Nat := (v.content, v.size)

/-- Two file systems with the same files, contents and sizes (timestamps
may differ — the only thing a non-dry run changes during ingestion). -/
abbrev FsSim (a b : FS) : Prop := ∀ p, (a p).map valShape = (b p).map valShape

/-- States that agree on everything the control flow can observe:
statistics (including errors), catalog, duplicate map, and file-system
shape.  Console logs and timestamps are unconstrained. -/
abbrev Sim (a b : RunState) : Prop :=
  a.stats = b.stats ∧ a.duplicates = b.duplicates ∧
  a.processed_files = b.processed_files ∧ FsSim a.fs b.fs

/-- Every catalogued entry's path names a file present on disk. -/
abbrev CatalogSourcesExist (st : RunState) : Prop :=
  ∀ fi ∈ st.processed_files, (st.fs fi.path).isSome

/-- The copy destinations the Organizer derives from a catalog. -/
def orgTargets (output_dir : String) (l : List FileInfo) : List String :=
  l.filterMap (fun fi =>
    fi.original_date.map (fun d => targetPath output_dir d fi.name))

/-- Applying a sequence of file writes in order. -/
def applyWrites (fs : FS) (W : List (String × FileVal)) : FS :=
  W.foldl (fun fs w => fsSet fs w.1 w.2) fs

/-- The value the last write to `p` in `W` leaves, if any. -/
def lastVal : List (String × FileVal) → String → Option FileVal
  | [], _ => none
  | w :: W, p =>
      match lastVal W p with
      | some v => some v
      | none => if p = w.1 then some w.2 else none

/-- The writes one Organizer pass performs, as computed against a fixed
file system (valid when no source is also a target). -/
def writeList (fs : FS) (output_dir : String) (l : List FileInfo) :
    List (String × FileVal) :=
  l.filterMap (fun fi =>
    match fi.original_date, fs fi.path with
    | some d, some v => some (targetPath output_dir d fi.name, v)
    | _, _ => none)

/-- Equality of all numeric counters (the error list may differ). -/
abbrev sameCounters (a b : Stats) : Prop :=
  a.files_processed = b.files_processed ∧
  a.timestamps_fixed = b.timestamps_fixed ∧
  a.duplicates_found = b.duplicates_found ∧
  a.favorites = b.favorites ∧
  a.hidden_files = b.hidden_files ∧
  a.deleted_files = b.deleted_files

/-- The counters that are bumped at most once per catalogued row. -/
abbrev CountersBounded (s : Stats) : Prop :=
  s.timestamps_fixed ≤ s.files_processed ∧
  s.favorites ≤ s.files_processed ∧
  s.hidden_files ≤ s.files_processed ∧
  s.deleted_files ≤ s.files_processed

/-! ### Concrete inputs used in counterexamples and witnesses -/

/-- A well-formed vendor date string (the spec's own example). -/
def sampleDateString : String := "Saturday September 16,2023 5:27 PM GMT"

def sampleDate : PDate := ⟨2023, 1, 1, 17, 27⟩

/-- A well-formed row referencing image `img` with view count `vc`. -/
def mkRow (img vc : String) : Row :=
  ⟨some img, some "ck", some "no", some "no", some "no",
   some sampleDateString, some vc⟩

/-- A small on-disk state: two photos under `photos/`. -/
def fsTwo : FS := fun p =>
  if p = "photos/a.jpg" then some ⟨1, 3, none⟩
  else if p = "photos/b.jpg" then some ⟨2, 4, none⟩
  else none

def stTwo : RunState := initState fsTwo

/-- A row whose `viewCount` is not an integer. -/
def rowBadInt : Row := mkRow "a.jpg" "abc"

/-- A valid row after it, referencing a file that exists. -/
def rowGoodB : Row := mkRow "b.jpg" "3"

/-- A row whose `originalCreationDate` cannot be parsed. -/
def rowBadDate : Row :=
  ⟨some "a.jpg", some "ck", some "no", some "no", some "no",
   some "baddate", some "3"⟩

/-- Organizer counterexample state: entry `fiOrgB`'s source file is
itself the copy target of entry `fiOrgA`. -/
def fiOrgA : FileInfo :=
  ⟨"src/a.jpg", "a.jpg", "c1", false, false, false, some ⟨2023, 1, 1, 0, 0⟩, 0, 5⟩

def fiOrgB : FileInfo :=
  ⟨"out/2023/01/a.jpg", "b.jpg", "c2", false, false, false,
   some ⟨2023, 1, 1, 0, 0⟩, 0, 7⟩

def fsOrg : FS := fun p =>
  if p = "src/a.jpg" then some ⟨1, 5, none⟩
  else if p = "out/2023/01/a.jpg" then some ⟨2, 7, none⟩
  else none

def stOrg : RunState := ⟨fsOrg, initStats, [], [fiOrgA, fiOrgB], []⟩

/-- Organizer witness state: one dated entry, sources disjoint from the
output tree. -/
def stOrgOk : RunState :=
  ⟨fun p => if p = "photos/a.jpg" then some ⟨1, 3, none⟩ else none,
   initStats, [],
   [⟨"photos/a.jpg", "a.jpg", "c1", false, false, false,
     some ⟨2023, 1, 1, 0, 0⟩, 0, 3⟩], []⟩

/-! ## Theorems -/

/-- **C1**: The claim states that `parse_apple_date` strips only the
weekday and timezone tokens and preserves month and day.  On the spec's
own well-formed example the code instead takes `split(',')[1]` — which
discards the whole "Saturday September 16" prefix — and parses the rest
with `'%Y %I:%M %p'`, so month and day default to January 1.  Spec §9
flags exactly this truncated variant as a defect, so the claim is right
about the intent and the code is the slip. -/
theorem parse_apple_date_truncates_month_day :
    (parse_apple_date sampleDateString).1
      = some { year := 2023, month := 1, day := 1, hour := 17, minute := 27 } ∧
    (parse_apple_date sampleDateString).1.map PDate.month ≠ some 9 ∧
    (parse_apple_date sampleDateString).1.map PDate.day ≠ some 16 := by
  decide

/-! ### Statistics bookkeeping (claim C10) -/

theorem set_file_timestamps_sameCounters (dry : Bool) (st : RunState)
    (p : String) (cd : Option PDate) :
    sameCounters (set_file_timestamps dry st p cd).2.stats st.stats := by
  unfold set_file_timestamps
  cases cd with
  | none => simp [sameCounters]
  | some d =>
      by_cases hd : dry <;>
        simp only [hd, if_true, if_false, Bool.false_eq_true, ite_true, ite_false]
      · simp [addLog, sameCounters]
      · cases h : fsUtime st.fs p d <;> simp [addError, addLog, sameCounters]

theorem catalogStats_counters (s : Stats) (f h d : Bool) :
    (catalogStats s f h d).files_processed = s.files_processed + 1 ∧
    (catalogStats s f h d).timestamps_fixed = s.timestamps_fixed ∧
    (catalogStats s f h d).favorites ≤ s.favorites + 1 ∧
    (catalogStats s f h d).hidden_files ≤ s.hidden_files + 1 ∧
    (catalogStats s f h d).deleted_files ≤ s.deleted_files + 1 := by
  unfold catalogStats
  refine ⟨rfl, rfl, ?_, ?_, ?_⟩ <;> dsimp only <;> split <;> omega

theorem fixRowTimestamp_counters (dry : Bool) (st : RunState) (p : String)
    (od : Option PDate) :
    (fixRowTimestamp dry st p od).stats.files_processed
      = st.stats.files_processed ∧
    (fixRowTimestamp dry st p od).stats.timestamps_fixed
      ≤ st.stats.timestamps_fixed + 1 ∧
    (fixRowTimestamp dry st p od).stats.favorites = st.stats.favorites ∧
    (fixRowTimestamp dry st p od).stats.hidden_files = st.stats.hidden_files ∧
    (fixRowTimestamp dry st p od).stats.deleted_files
      = st.stats.deleted_files := by
  cases od with
  | none => exact ⟨rfl, Nat.le_succ _, rfl, rfl, rfl⟩
  | some d =>
      obtain ⟨e1, e2, e3, e4, e5, e6⟩ :=
        set_file_timestamps_sameCounters dry st p (some d)
      have hfix : fixRowTimestamp dry st p (some d)
          = (if (set_file_timestamps dry st p (some d)).1
             then { (set_file_timestamps dry st p (some d)).2 with
                    stats := bumpTimestampsFixed
                      (set_file_timestamps dry st p (some d)).2.stats }
             else (set_file_timestamps dry st p (some d)).2) := rfl
      rw [hfix]
      split
      · refine ⟨?_, ?_, ?_, ?_, ?_⟩ <;> dsimp only [bumpTimestampsFixed] <;> omega
      · exact ⟨e1, by omega, e4, e5, e6⟩

theorem processRowWith_bounded (dry : Bool) (dir : String) (st : RunState)
    (rd : RowData) (hb : CountersBounded st.stats) :
    CountersBounded (processRowWith dry dir st rd).stats := by
  simp only [processRowWith]
  split
  · exact hb
  · rename_i fv _
    obtain ⟨hb1, hb2, hb3, hb4⟩ := hb
    obtain ⟨c1, c2, c3, c4, c5⟩ :=
      catalogStats_counters st.stats rd.favorite rd.hidden rd.deleted
    obtain ⟨f1, f2, f3, f4, f5⟩ :=
      fixRowTimestamp_counters dry (catalogEntry st (mkFileInfo dir rd fv))
        (dir ++ "/" ++ rd.img_name) rd.original_date
    have hce : (catalogEntry st (mkFileInfo dir rd fv)).stats
        = catalogStats st.stats rd.favorite rd.hidden rd.deleted := rfl
    rw [hce] at f1 f2 f3 f4 f5
    exact ⟨by omega, by omega, by omega, by omega⟩

theorem processRow_bounded (dry : Bool) (dir : String) (st : RunState)
    (row : Row) (hb : CountersBounded st.stats) :
    CountersBounded (processRow dry dir st row).1.stats := by
  simp only [processRow]
  split
  · exact hb
  · exact processRowWith_bounded dry dir _ _ hb

theorem processRowsGo_bounded (dry : Bool) (csvp dir : String)
    (rows : List Row) (st : RunState) (hb : CountersBounded st.stats) :
    CountersBounded (processRowsGo dry csvp dir rows st).stats := by
  induction rows generalizing st with
  | nil => exact hb
  | cons r rest ih =>
      unfold processRowsGo
      have hr := processRow_bounded dry dir st r hb
      cases hpr : processRow dry dir st r with
      | mk st' oe =>
          rw [hpr] at hr
          cases oe with
          | none => exact ih st' hr
          | some e =>
              obtain ⟨g1, g2, g3, g4⟩ := hr
              exact ⟨g1, g2, g3, g4⟩

/-- **C10**: each of `timestamps_fixed`, `favorites`, `hidden_files`,
`deleted_files` is bumped at most once per row and only in a row that
also bumps `files_processed`, so each stays `≤ files_processed`: the
bound is preserved by every per-row step, by any row sequence, and holds
for any sequence processed from the initial (all-zero) statistics. -/
theorem counters_bounded_by_files_processed :
    (∀ (dry : Bool) (dir : String) (st : RunState) (row : Row),
       CountersBounded st.stats →
       CountersBounded (processRow dry dir st row).1.stats) ∧
    (∀ (dry : Bool) (csvp dir : String) (rows : List Row) (st : RunState),
       CountersBounded st.stats →
       CountersBounded (processRowsGo dry csvp dir rows st).stats) ∧
    (∀ (dry : Bool) (csvp dir : String) (rows : List Row) (fs : FS),
       CountersBounded
         (processRowsGo dry csvp dir rows (initState fs)).stats) := by
  refine ⟨processRow_bounded, processRowsGo_bounded, ?_⟩
  intro dry csvp dir rows fs
  exact processRowsGo_bounded dry csvp dir rows (initState fs)
    ⟨Nat.le_refl 0, Nat.le_refl 0, Nat.le_refl 0, Nat.le_refl 0⟩

/-! ### File-presence bookkeeping (claims C4, C9) -/

theorem fsSet_isSome (fs : FS) (q : String) (v : FileVal) (p : String)
    (h : (fs p).isSome) : ((fsSet fs q v) p).isSome := by
  unfold fsSet
  split
  · rfl
  · exact h

theorem set_file_timestamps_fs_mono (dry : Bool) (st : RunState) (p : String)
    (cd : Option PDate) (q : String) (h : (st.fs q).isSome) :
    ((set_file_timestamps dry st p cd).2.fs q).isSome := by
  unfold set_file_timestamps
  cases cd with
  | none => exact h
  | some d =>
      dsimp only
      split
      · exact h
      · cases hu : fsUtime st.fs p d with
        | none => exact h
        | some fs' =>
            unfold fsUtime at hu
            cases hv : st.fs p with
            | none => rw [hv] at hu; exact absurd hu (by simp)
            | some v =>
                rw [hv] at hu
                simp only [Option.some.injEq] at hu
                subst hu
                exact fsSet_isSome st.fs p _ q h

theorem set_file_timestamps_catalog (dry : Bool) (st : RunState) (p : String)
    (cd : Option PDate) :
    (set_file_timestamps dry st p cd).2.processed_files = st.processed_files := by
  unfold set_file_timestamps
  cases cd with
  | none => rfl
  | some d =>
      dsimp only
      split
      · rfl
      · cases hu : fsUtime st.fs p d <;> rfl

theorem fixRowTimestamp_catalog (dry : Bool) (st : RunState) (p : String)
    (od : Option PDate) :
    (fixRowTimestamp dry st p od).processed_files = st.processed_files := by
  cases od with
  | none => rfl
  | some d =>
      have h := set_file_timestamps_catalog dry st p (some d)
      unfold fixRowTimestamp
      dsimp only
      split
      · exact h
      · exact h

theorem fixRowTimestamp_fs_mono (dry : Bool) (st : RunState) (p : String)
    (od : Option PDate) (q : String) (h : (st.fs q).isSome) :
    ((fixRowTimestamp dry st p od).fs q).isSome := by
  cases od with
  | none => exact h
  | some d =>
      have hm := set_file_timestamps_fs_mono dry st p (some d) q h
      unfold fixRowTimestamp
      dsimp only
      split
      · exact hm
      · exact hm

theorem processRowWith_sources (dry : Bool) (dir : String) (st : RunState)
    (rd : RowData) (h : CatalogSourcesExist st) :
    CatalogSourcesExist (processRowWith dry dir st rd) ∧
    (∀ q, (st.fs q).isSome → ((processRowWith dry dir st rd).fs q).isSome) := by
  simp only [processRowWith]
  split
  · exact ⟨h, fun q hq => hq⟩
  · rename_i fv heq
    have hfs : (catalogEntry st (mkFileInfo dir rd fv)).fs = st.fs := rfl
    constructor
    · intro fi hfi
      rw [fixRowTimestamp_catalog] at hfi
      have hcat : (catalogEntry st (mkFileInfo dir rd fv)).processed_files
          = st.processed_files ++ [mkFileInfo dir rd fv] := rfl
      rw [hcat] at hfi
      rcases List.mem_append.1 hfi with hfi | hfi
      · exact fixRowTimestamp_fs_mono dry _ _ _ _ (h fi hfi)
      · have : fi = mkFileInfo dir rd fv := by simpa using hfi
        subst this
        refine fixRowTimestamp_fs_mono dry _ _ _ _ ?_
        show (st.fs (dir ++ "/" ++ rd.img_name)).isSome
        rw [heq]; rfl
    · intro q hq
      exact fixRowTimestamp_fs_mono dry _ _ _ _ hq

theorem processRow_sources (dry : Bool) (dir : String) (st : RunState)
    (row : Row) (h : CatalogSourcesExist st) :
    CatalogSourcesExist (processRow dry dir st row).1 ∧
    (∀ q, (st.fs q).isSome → ((processRow dry dir st row).1.fs q).isSome) := by
  simp only [processRow]
  split
  · exact ⟨h, fun q hq => hq⟩
  · exact processRowWith_sources dry dir _ _ h

theorem processRowsGo_sources (dry : Bool) (csvp dir : String)
    (rows : List Row) (st : RunState) (h : CatalogSourcesExist st) :
    CatalogSourcesExist (processRowsGo dry csvp dir rows st) ∧
    (∀ q, (st.fs q).isSome →
      ((processRowsGo dry csvp dir rows st).fs q).isSome) := by
  induction rows generalizing st with
  | nil => exact ⟨h, fun q hq => hq⟩
  | cons r rest ih =>
      unfold processRowsGo
      obtain ⟨h1, h2⟩ := processRow_sources dry dir st r h
      cases hpr : processRow dry dir st r with
      | mk st' oe =>
          rw [hpr] at h1 h2
          cases oe with
          | none =>
              obtain ⟨g1, g2⟩ := ih st' h1
              exact ⟨g1, fun q hq => g2 q (h2 q hq)⟩
          | some e => exact ⟨h1, h2⟩

theorem processCsvFile_sources (dry : Bool) (csvp : String)
    (content : Except String (List Row)) (dir : String) (st : RunState)
    (h : CatalogSourcesExist st) :
    CatalogSourcesExist (processCsvFile dry csvp content dir st) ∧
    (∀ q, (st.fs q).isSome →
      ((processCsvFile dry csvp content dir st).fs q).isSome) := by
  unfold processCsvFile
  cases content with
  | error e => exact ⟨h, fun q hq => hq⟩
  | ok rows => exact processRowsGo_sources dry csvp dir rows _ h

/-- **C4**: a well-formed row whose referenced file is absent only logs a
WARNING: the state is otherwise untouched (no catalog entry, no counter
change), the loop continues with the remaining rows, and every state
reachable by CSV processing keeps the invariant that each catalogued
entry's path names a file present on disk. -/
theorem missing_file_row_skipped :
    (∀ (dry : Bool) (dir : String) (st : RunState) (row : Row)
       (rd : RowData) (lines : List String),
       extractRow row = (.ok rd, lines) →
       st.fs (dir ++ "/" ++ rd.img_name) = none →
       processRow dry dir st row =
         ({ st with log := st.log ++ lines ++
             ["WARNING: File not found: " ++ (dir ++ "/" ++ rd.img_name)] },
          none)) ∧
    (∀ (dry : Bool) (csvp dir : String) (st : RunState) (row : Row)
       (rd : RowData) (lines : List String) (rest : List Row),
       extractRow row = (.ok rd, lines) →
       st.fs (dir ++ "/" ++ rd.img_name) = none →
       processRowsGo dry csvp dir (row :: rest) st =
         processRowsGo dry csvp dir rest
           { st with log := st.log ++ lines ++
               ["WARNING: File not found: " ++ (dir ++ "/" ++ rd.img_name)] }) ∧
    (∀ (dry : Bool) (csvp : String) (content : Except String (List Row))
       (dir : String) (st : RunState),
       CatalogSourcesExist st →
       CatalogSourcesExist (processCsvFile dry csvp content dir st)) := by
  have key : ∀ (dry : Bool) (dir : String) (st : RunState) (row : Row)
      (rd : RowData) (lines : List String),
      extractRow row = (.ok rd, lines) →
      st.fs (dir ++ "/" ++ rd.img_name) = none →
      processRow dry dir st row =
        ({ st with log := st.log ++ lines ++
            ["WARNING: File not found: " ++ (dir ++ "/" ++ rd.img_name)] },
         none) := by
    intro dry dir st row rd lines hex hfs
    simp only [processRow, hex]
    have : ({ st with log := st.log ++ lines } : RunState).fs = st.fs := rfl
    simp only [processRowWith, this, hfs]
    simp [addLog, List.append_assoc]
  refine ⟨key, ?_, ?_⟩
  · intro dry csvp dir st row rd lines rest hex hfs
    have h2 : processRowsGo dry csvp dir (row :: rest) st
        = match processRow dry dir st row with
          | (st', none) => processRowsGo dry csvp dir rest st'
          | (st', some e) =>
              addError st' ("Error processing CSV " ++ csvp ++ ": " ++ e) := rfl
    rw [h2, key dry dir st row rd lines hex hfs]
  · intro dry csvp content dir st h
    exact (processCsvFile_sources dry csvp content dir st h).1

/-- Witness for C4: a concrete well-formed row referencing a file that is
not on disk. -/
theorem missing_file_row_skipped_witness :
    extractRow (mkRow "zz.jpg" "3") =
      (.ok ⟨"zz.jpg", "ck", false, false, false, some sampleDate, 3⟩, []) ∧
    stTwo.fs "photos/zz.jpg" = none ∧
    CatalogSourcesExist stTwo ∧
    processRow false "photos" stTwo (mkRow "zz.jpg" "3") =
      ({ stTwo with log := stTwo.log ++ [] ++
          ["WARNING: File not found: photos/zz.jpg"] }, none) ∧
    CatalogSourcesExist
      (processCsvFile false "pd.csv" (.ok [mkRow "zz.jpg" "3"]) "photos"
        stTwo) :=
  ⟨by decide, by decide, by decide,
   missing_file_row_skipped.1 false "photos" stTwo (mkRow "zz.jpg" "3")
     ⟨"zz.jpg", "ck", false, false, false, some sampleDate, 3⟩ [] (by decide)
     (by decide),
   missing_file_row_skipped.2.2 false "pd.csv" (.ok [mkRow "zz.jpg" "3"])
     "photos" stTwo (by decide)⟩

/-! ### The checksum multimap and `find_duplicates` (claim C2) -/

theorem dupLookup_dupAdd_same (m : List (String × List FileInfo)) (k : String)
    (fi : FileInfo) :
    dupLookup (dupAdd m k fi) k = some ((dupLookup m k).getD [] ++ [fi]) := by
  induction m with
  | nil => simp [dupAdd, dupLookup]
  | cons p rest ih =>
      obtain ⟨k', l⟩ := p
      by_cases h : k' = k
      · subst h
        simp [dupAdd, dupLookup]
      · simp [dupAdd, dupLookup, h, ih]

theorem dupLookup_dupAdd_ne (m : List (String × List FileInfo)) (k k' : String)
    (fi : FileInfo) (h : k' ≠ k) :
    dupLookup (dupAdd m k fi) k' = dupLookup m k' := by
  have hkk : ¬ k = k' := fun hh => h hh.symm
  induction m with
  | nil => simp [dupAdd, dupLookup, hkk]
  | cons p rest ih =>
      obtain ⟨q, l⟩ := p
      by_cases hq : q = k
      · subst hq
        simp [dupAdd, dupLookup, hkk]
      · simp [dupAdd, dupLookup, hq, ih]

theorem dupLookup_eq_none_iff (m : List (String × List FileInfo)) (k : String) :
    dupLookup m k = none ↔ k ∉ m.map Prod.fst := by
  induction m with
  | nil => simp [dupLookup]
  | cons p rest ih =>
      obtain ⟨q, l⟩ := p
      by_cases hq : q = k
      · subst hq; simp [dupLookup]
      · have hq' : ¬ k = q := fun hh => hq hh.symm
        simp [dupLookup, hq, hq', ih]

theorem mem_iff_dupLookup (m : List (String × List FileInfo)) (k : String)
    (l : List FileInfo) (hn : (m.map Prod.fst).Nodup) :
    (k, l) ∈ m ↔ dupLookup m k = some l := by
  induction m with
  | nil => simp [dupLookup]
  | cons p rest ih =>
      obtain ⟨q, g⟩ := p
      simp only [List.map_cons, List.nodup_cons] at hn
      have hlook : dupLookup ((q, g) :: rest) k
          = if q = k then some g else dupLookup rest k := rfl
      by_cases hq : q = k
      · subst hq
        rw [hlook, if_pos rfl]
        constructor
        · intro hmem
          rcases List.mem_cons.1 hmem with h | h
          · injection h with h1 h2
            rw [h2]
          · exact absurd (List.mem_map.2 ⟨(q, l), h, rfl⟩) hn.1
        · intro h
          injection h with h1
          exact List.mem_cons.2 (Or.inl (by rw [h1]))
      · rw [hlook, if_neg hq]
        constructor
        · intro hmem
          rcases List.mem_cons.1 hmem with h | h
          · exact absurd (congrArg Prod.fst h).symm hq
          · exact (ih hn.2).1 h
        · intro h
          exact List.mem_cons.2 (Or.inr ((ih hn.2).2 h))

theorem dupAdd_keys (m : List (String × List FileInfo)) (k : String)
    (fi : FileInfo) :
    (dupAdd m k fi).map Prod.fst
      = if k ∈ m.map Prod.fst then m.map Prod.fst
        else m.map Prod.fst ++ [k] := by
  induction m with
  | nil => simp [dupAdd]
  | cons p rest ih =>
      obtain ⟨q, l⟩ := p
      by_cases hq : q = k
      · subst hq; simp [dupAdd]
      · have hkq : ¬ k = q := fun hh => hq hh.symm
        have hstep : dupAdd ((q, l) :: rest) k fi
            = (q, l) :: dupAdd rest k fi := by simp [dupAdd, hq]
        rw [hstep, List.map_cons, List.map_cons, ih]
        by_cases hm : k ∈ rest.map Prod.fst
        · rw [if_pos hm, if_pos (List.mem_cons.2 (Or.inr hm))]
        · rw [if_neg hm, if_neg (by
            intro hc
            rcases List.mem_cons.1 hc with hc | hc
            · exact hkq hc
            · exact hm hc)]
          rw [List.cons_append]

theorem dupAdd_keys_nodup (m : List (String × List FileInfo)) (k : String)
    (fi : FileInfo) (hn : (m.map Prod.fst).Nodup) :
    ((dupAdd m k fi).map Prod.fst).Nodup := by
  rw [dupAdd_keys]
  split
  · exact hn
  · rename_i hk
    rw [List.nodup_append]
    refine ⟨hn, List.nodup_singleton k, ?_⟩
    intro x hx hx'
    rcases List.mem_singleton.1 hx' with rfl
    exact hk hx

theorem groupOf_cons (p : String × FileInfo) (ps : List (String × FileInfo))
    (k : String) :
    groupOf (p :: ps) k
      = if p.1 = k then p.2 :: groupOf ps k else groupOf ps k := by
  by_cases h : p.1 = k <;> simp [groupOf, List.filter_cons, h]

theorem groupOf_eq_nil_iff (ps : List (String × FileInfo)) (k : String) :
    groupOf ps k = [] ↔ k ∉ ps.map Prod.fst := by
  induction ps with
  | nil => simp [groupOf]
  | cons p rest ih =>
      rw [groupOf_cons]
      by_cases h : p.1 = k
      · simp [h]
      · have h' : ¬ k = p.1 := fun hh => h hh.symm
        simp [h, h', ih]

theorem buildDupFrom_cons (m : List (String × List FileInfo))
    (p : String × FileInfo) (ps : List (String × FileInfo)) :
    buildDupFrom m (p :: ps) = buildDupFrom (dupAdd m p.1 p.2) ps := rfl

theorem buildDupFrom_lookup (ps : List (String × FileInfo))
    (m : List (String × List FileInfo)) (k : String) :
    dupLookup (buildDupFrom m ps) k
      = if groupOf ps k = [] then dupLookup m k
        else some ((dupLookup m k).getD [] ++ groupOf ps k) := by
  induction ps generalizing m with
  | nil => simp [buildDupFrom, groupOf]
  | cons p rest ih =>
      rw [buildDupFrom_cons, ih, groupOf_cons]
      by_cases hpk : p.1 = k
      · rw [if_pos hpk, hpk, dupLookup_dupAdd_same]
        by_cases hg : groupOf rest k = []
        · simp [hg]
        · simp [hg, List.append_assoc]
      · have hs := dupLookup_dupAdd_ne m p.1 k p.2 (fun hh => hpk hh.symm)
        simp only [if_neg hpk, hs]

theorem buildDup_lookup (ps : List (String × FileInfo)) (k : String) :
    dupLookup (buildDup ps) k
      = if groupOf ps k = [] then none else some (groupOf ps k) := by
  unfold buildDup
  rw [buildDupFrom_lookup]
  simp [dupLookup]

theorem buildDupFrom_keys_nodup (ps : List (String × FileInfo))
    (m : List (String × List FileInfo)) (hn : (m.map Prod.fst).Nodup) :
    ((buildDupFrom m ps).map Prod.fst).Nodup := by
  induction ps generalizing m with
  | nil => exact hn
  | cons p rest ih =>
      rw [buildDupFrom_cons]
      exact ih _ (dupAdd_keys_nodup m p.1 p.2 hn)

theorem buildDup_keys_nodup (ps : List (String × FileInfo)) :
    ((buildDup ps).map Prod.fst).Nodup :=
  buildDupFrom_keys_nodup ps [] (by simp)

theorem mem_buildDup_iff (ps : List (String × FileInfo)) (k : String)
    (l : List FileInfo) :
    (k, l) ∈ buildDup ps ↔ (k ∈ ps.map Prod.fst ∧ l = groupOf ps k) := by
  rw [mem_iff_dupLookup _ _ _ (buildDup_keys_nodup ps), buildDup_lookup]
  by_cases hg : groupOf ps k = []
  · simp [hg, (groupOf_eq_nil_iff ps k).1 hg]
  · have hk : k ∈ ps.map Prod.fst := by
      by_contra hk
      exact hg ((groupOf_eq_nil_iff ps k).2 hk)
    simp [hg, hk, eq_comm]

theorem groupOf_length_le_one (ps : List (String × FileInfo)) (k : String)
    (hn : (ps.map Prod.fst).Nodup) : (groupOf ps k).length ≤ 1 := by
  induction ps with
  | nil => simp [groupOf]
  | cons p rest ih =>
      simp only [List.map_cons, List.nodup_cons] at hn
      rw [groupOf_cons]
      by_cases h : p.1 = k
      · have : groupOf rest k = [] := by
          rw [groupOf_eq_nil_iff]
          rw [← h]
          exact hn.1
        simp [h, this]
      · simp only [if_neg h]
        exact ih hn.2

theorem buildDupFrom_all_same (c : String) (ps : List (String × FileInfo))
    (hc : ∀ p ∈ ps, p.1 = c) (acc : List FileInfo) :
    buildDupFrom [(c, acc)] ps = [(c, acc ++ ps.map Prod.snd)] := by
  induction ps generalizing acc with
  | nil => simp [buildDupFrom]
  | cons p rest ih =>
      rw [buildDupFrom_cons]
      have hp : p.1 = c := hc p (List.mem_cons_self p rest)
      have hadd : dupAdd [(c, acc)] p.1 p.2 = [(c, acc ++ [p.2])] := by
        rw [hp]; simp [dupAdd]
      rw [hadd, ih (fun q hq => hc q (List.mem_cons_of_mem p hq))]
      simp

theorem buildDup_all_same (c : String) (ps : List (String × FileInfo))
    (hc : ∀ p ∈ ps, p.1 = c) (hne : ps ≠ []) :
    buildDup ps = [(c, ps.map Prod.snd)] := by
  cases ps with
  | nil => exact absurd rfl hne
  | cons p rest =>
      have hp : p.1 = c := hc p (List.mem_cons_self p rest)
      unfold buildDup
      rw [buildDupFrom_cons]
      have hadd : dupAdd [] p.1 p.2 = [(c, [p.2])] := by rw [hp]; rfl
      rw [hadd, buildDupFrom_all_same c rest
        (fun q hq => hc q (List.mem_cons_of_mem p hq))]
      simp

theorem find_duplicates_val (st : RunState) :
    (find_duplicates st).1
      = st.duplicates.filter (fun kv => decide (1 < kv.2.length)) := rfl

/-- **C2**: `find_duplicates` returns exactly the checksum groups of
cardinality ≥ 2 of the multimap the per-row ingestion builds (the
`catalogEntry` conjunct ties the map to the per-row `dupAdd` calls); a
map built from pairwise-distinct checksums yields `[]`; a map built from
`N ≥ 2` entries sharing one checksum yields the single group of all `N`
entries. -/
theorem find_duplicates_exactly_groups :
    (∀ (st : RunState) (fi : FileInfo),
       (catalogEntry st fi).duplicates = dupAdd st.duplicates fi.checksum fi) ∧
    (∀ (ps : List (String × FileInfo)) (st : RunState),
       st.duplicates = buildDup ps →
       ∀ (k : String) (l : List FileInfo),
         (k, l) ∈ (find_duplicates st).1 ↔
           (k ∈ ps.map Prod.fst ∧ l = groupOf ps k ∧ 2 ≤ l.length)) ∧
    (∀ (ps : List (String × FileInfo)) (st : RunState),
       st.duplicates = buildDup ps →
       (ps.map Prod.fst).Nodup → (find_duplicates st).1 = []) ∧
    (∀ (c : String) (ps : List (String × FileInfo)) (st : RunState),
       st.duplicates = buildDup ps →
       (∀ p ∈ ps, p.1 = c) → 2 ≤ ps.length →
       (find_duplicates st).1 = [(c, ps.map Prod.snd)] ∧
       (ps.map Prod.snd).length = ps.length) := by
  refine ⟨fun st fi => rfl, ?_, ?_, ?_⟩
  · intro ps st hst k l
    rw [find_duplicates_val, List.mem_filter, hst, mem_buildDup_iff]
    constructor
    · rintro ⟨⟨hk, hl⟩, hlen⟩
      exact ⟨hk, hl, by simpa using hlen⟩
    · rintro ⟨hk, hl, hlen⟩
      exact ⟨⟨hk, hl⟩, by simpa using hlen⟩
  · intro ps st hst hn
    rw [find_duplicates_val, hst]
    rw [List.filter_eq_nil_iff]
    intro kv hkv
    obtain ⟨k, l⟩ := kv
    have := (mem_buildDup_iff ps k l).1 hkv
    have hle : l.length ≤ 1 := this.2 ▸ groupOf_length_le_one ps k hn
    simp only [decide_eq_true_eq]
    omega
  · intro c ps st hst hc hlen
    have hne : ps ≠ [] := by
      intro h; rw [h] at hlen; simp at hlen
    have hb := buildDup_all_same c ps hc hne
    have hmap : (ps.map Prod.snd).length = ps.length := List.length_map ps _
    refine ⟨?_, hmap⟩
    rw [find_duplicates_val, hst, hb]
    have h2 : 1 < ps.length := by omega
    have h3 : 1 < (ps.map Prod.snd).length := by omega
    simp [List.filter_cons, h2, h3]

/-- Witness for C2 at concrete multimaps: two entries sharing a checksum
and two entries with distinct checksums. -/
theorem find_duplicates_exactly_groups_witness :
    (find_duplicates ⟨fsTwo, initStats,
        buildDup [("c1", fiOrgA), ("c1", fiOrgB)], [], []⟩).1
      = [("c1", [fiOrgA, fiOrgB])] ∧
    (find_duplicates ⟨fsTwo, initStats,
        buildDup [("c1", fiOrgA), ("c2", fiOrgB)], [], []⟩).1 = [] := by
  constructor
  · exact (find_duplicates_exactly_groups.2.2.2 "c1"
      [("c1", fiOrgA), ("c1", fiOrgB)] _ rfl (by decide) (by decide)).1
  · exact find_duplicates_exactly_groups.2.2.1
      [("c1", fiOrgA), ("c2", fiOrgB)] _ rfl (by decide)

/-! ### Parse-failure recovery (claim C6) -/

/-- **C6**: when date parsing fails it logs exactly one ERROR line and
returns `None`; field extraction never raises because of the date (the
parsed option is just stored); and the caller still catalogs the row —
with `original_date` absent and `timestamps_fixed` untouched — whenever
the referenced file exists. -/
theorem parse_failure_recovered :
    (∀ s : String, (parse_apple_date s).1 = none →
       (parse_apple_date s).2.length = 1) ∧
    (∀ (i c f h dl o v : String) (n : Int),
       pyInt v = some n →
       (extractRow ⟨some i, some c, some f, some h, some dl, some o,
          some v⟩).1
         = .ok ⟨i, c, f == "yes", h == "yes", dl == "yes",
                (parse_apple_date o).1, n⟩) ∧
    (∀ (dry : Bool) (dir : String) (st : RunState) (row : Row)
       (rd : RowData) (lines : List String) (fv : FileVal),
       extractRow row = (.ok rd, lines) →
       rd.original_date = none →
       st.fs (dir ++ "/" ++ rd.img_name) = some fv →
       processRow dry dir st row =
         (catalogEntry { st with log := st.log ++ lines }
            (mkFileInfo dir rd fv), none) ∧
       (mkFileInfo dir rd fv).original_date = none ∧
       (catalogEntry { st with log := st.log ++ lines }
          (mkFileInfo dir rd fv)).stats.timestamps_fixed
         = st.stats.timestamps_fixed) := by
  refine ⟨?_, ?_, ?_⟩
  · intro s hs
    unfold parse_apple_date at hs ⊢
    cases h1 : (splitOnChar ',' s.toList).get? 1 with
    | none => simp [h1]
    | some part =>
        simp only [h1] at hs ⊢
        cases h2 : strptimeYIMp (removeGMT (trimChars part)) with
        | some d => simp [h2] at hs
        | none => simp [h2]
  · intro i c f h dl o v n hv
    simp only [extractRow, hv]
  · intro dry dir st row rd lines fv hex hod hfs
    refine ⟨?_, hod, ?_⟩
    · simp only [processRow, hex, processRowWith, hfs, hod, fixRowTimestamp]
    · show (catalogStats st.stats _ _ _).timestamps_fixed
        = st.stats.timestamps_fixed
      exact (catalogStats_counters st.stats _ _ _).2.1

/-- Witness for C6: a concrete unparseable date string and a concrete row
carrying it whose referenced file exists. -/
theorem parse_failure_recovered_witness :
    (parse_apple_date "baddate").1 = none ∧
    (parse_apple_date "baddate").2.length = 1 ∧
    processRow false "photos" stTwo rowBadDate =
      (catalogEntry
        { stTwo with log := stTwo.log ++ ["ERROR: Error parsing date baddate"] }
        (mkFileInfo "photos"
          ⟨"a.jpg", "ck", false, false, false, none, 3⟩ ⟨1, 3, none⟩),
       none) :=
  ⟨by decide,
   parse_failure_recovered.1 "baddate" (by decide),
   (parse_failure_recovered.2.2 false "photos" stTwo rowBadDate
      ⟨"a.jpg", "ck", false, false, false, none, 3⟩
      ["ERROR: Error parsing date baddate"] ⟨1, 3, none⟩ (by decide) (by decide)
      (by decide)).1⟩

/-! ### Malformed rows abort their file (claim C5) -/

/-- **C5 counterexample**: the row loop of `process_csv_file` sits inside
a single `try`, so a malformed row (here: non-integer `viewCount`)
aborts the remaining rows of the same file.  With a bad row followed by
a valid row whose file exists, nothing is catalogued
(`files_processed = 0`), although the valid row alone would have been
processed — contradicting the claim that subsequent rows of the same
file are still processed. -/
theorem malformed_row_aborts_file_cex :
    (extractRow rowBadInt).1 = .error (intErrMsg "abc") ∧
    stTwo.fs "photos/b.jpg" = some ⟨2, 4, none⟩ ∧
    (processCsvFile false "pd.csv" (.ok [rowBadInt, rowGoodB]) "photos"
        stTwo).stats.files_processed = 0 ∧
    (processCsvFile false "pd.csv" (.ok [rowBadInt, rowGoodB]) "photos"
        stTwo).processed_files = [] ∧
    (processCsvFile false "pd.csv" (.ok [rowBadInt, rowGoodB]) "photos"
        stTwo).stats.errors.length = 1 ∧
    (processCsvFile false "pd.csv" (.ok [rowGoodB]) "photos"
        stTwo).stats.files_processed = 1 := by
  decide

/-- **C5 amended**: a malformed row (missing field or non-integer
`viewCount`) aborts the remaining rows of its own file: the exception is
caught by the per-file handler, logged, and appended to the error log,
while rows before the malformed one keep their effects and subsequent
metadata files are still processed (the per-file fold continues). -/
theorem malformed_row_aborts_rest_of_file :
    (∀ (dry : Bool) (csvp dir : String) (st : RunState) (row : Row)
       (e : String) (lines : List String) (rest : List Row),
       extractRow row = (.error e, lines) →
       processRowsGo dry csvp dir (row :: rest) st =
         addError { st with log := st.log ++ lines }
           ("Error processing CSV " ++ csvp ++ ": " ++ e)) ∧
    (∀ (dry : Bool) (dir : String) (f : String × Except String (List Row))
       (files : List (String × Except String (List Row))) (st : RunState),
       processCsvFiles dry dir (f :: files) st =
         processCsvFiles dry dir files (processCsvFile dry f.1 f.2 dir st)) := by
  constructor
  · intro dry csvp dir st row e lines rest hex
    have h2 : processRowsGo dry csvp dir (row :: rest) st
        = match processRow dry dir st row with
          | (st', none) => processRowsGo dry csvp dir rest st'
          | (st', some e) =>
              addError st' ("Error processing CSV " ++ csvp ++ ": " ++ e) := rfl
    rw [h2]
    simp only [processRow, hex]
  · intro dry dir f files st
    rfl

/-- Witness for C5 (amended) at the concrete malformed row. -/
theorem malformed_row_aborts_rest_witness :
    extractRow rowBadInt = (.error (intErrMsg "abc"), []) ∧
    processRowsGo false "pd.csv" "photos" [rowBadInt, rowGoodB] stTwo =
      addError { stTwo with log := stTwo.log ++ [] }
        ("Error processing CSV pd.csv: " ++ intErrMsg "abc") :=
  ⟨by decide,
   malformed_row_aborts_rest_of_file.1 false "pd.csv" "photos" stTwo rowBadInt
     (intErrMsg "abc") [] [rowGoodB] (by decide)⟩

/-! ### Which errors reach `stats['errors']` (claim C8) -/

/-- **C8 counterexample**: a date-parse failure and a missing-file
warning are only printed to the console; `stats['errors']` stays empty,
so these recovered errors never reach the error log surfaced by the
summary — contradicting the claim that every recovered error is appended
to it. -/
theorem parse_error_dropped_from_error_log_cex :
    (parse_apple_date "baddate").1 = none ∧
    (processCsvFile false "pd.csv" (.ok [rowBadDate]) "photos"
        stTwo).stats.errors = [] ∧
    "ERROR: Error parsing date baddate" ∈
      (processCsvFile false "pd.csv" (.ok [rowBadDate]) "photos" stTwo).log ∧
    (processCsvFile false "pd.csv" (.ok [rowBadDate]) "photos"
        stTwo).stats.files_processed = 1 ∧
    (processCsvFile false "pd.csv" (.ok [mkRow "zz.jpg" "3"]) "photos"
        stTwo).stats.errors = [] ∧
    "WARNING: File not found: photos/zz.jpg" ∈
      (processCsvFile false "pd.csv" (.ok [mkRow "zz.jpg" "3"]) "photos"
        stTwo).log := by
  decide

/-- **C8 amended**: only timestamp-mutation failures and unreadable
metadata files are appended to the single ordered error log; unparseable
dates and missing referenced files are recovered but only
console-logged.  The summary reports the total error count and the first
10 messages. -/
theorem error_log_routing_and_summary :
    (∀ (dry : Bool) (dir : String) (st : RunState) (row : Row)
       (rd : RowData) (lines : List String) (fv : FileVal),
       extractRow row = (.ok rd, lines) →
       rd.original_date = none →
       st.fs (dir ++ "/" ++ rd.img_name) = some fv →
       (processRow dry dir st row).1.stats.errors = st.stats.errors) ∧
    (∀ (dry : Bool) (dir : String) (st : RunState) (row : Row)
       (rd : RowData) (lines : List String),
       extractRow row = (.ok rd, lines) →
       st.fs (dir ++ "/" ++ rd.img_name) = none →
       (processRow dry dir st row).1.stats.errors = st.stats.errors) ∧
    (∀ (dry : Bool) (csvp dir : String) (e : String) (st : RunState),
       (processCsvFile dry csvp (.error e) dir st).stats.errors
         = st.stats.errors ++ ["Error processing CSV " ++ csvp ++ ": " ++ e]) ∧
    (∀ (st : RunState) (p : String) (d : PDate),
       st.fs p = none →
       set_file_timestamps false st p (some d)
         = (false, addError st ("Failed to set timestamp for " ++ p))) ∧
    (∀ st : RunState,
       ("INFO: Errors: " ++ toString st.stats.errors.length)
         ∈ (print_summary st).log ∧
       ∀ e ∈ st.stats.errors.take 10,
         ("INFO:   - " ++ e) ∈ (print_summary st).log) := by
  refine ⟨?_, ?_, ?_, ?_, ?_⟩
  · intro dry dir st row rd lines fv hex hod hfs
    simp only [processRow, hex, processRowWith, hfs, hod, fixRowTimestamp]
    rfl
  · intro dry dir st row rd lines hex hfs
    simp only [processRow, hex, processRowWith, hfs]
    rfl
  · intro dry csvp dir e st
    rfl
  · intro st p d hfs
    simp [set_file_timestamps, fsUtime, hfs]
  · intro st
    constructor
    · unfold print_summary
      simp
    · intro e he
      unfold print_summary
      simp only [RunState.log]
      rw [List.mem_append]
      right
      have hne : ¬ st.stats.errors.isEmpty := by
        cases hst : st.stats.errors with
        | nil => rw [hst] at he; simp at he
        | cons a l => simp [hst]
      rw [List.mem_append]
      right
      simp only [hne, if_neg, Bool.not_eq_true]
      right
      exact List.mem_map.2 ⟨e, he, rfl⟩

/-- Witness for C8 (amended) at concrete states. -/
theorem error_log_routing_witness :
    (processRow false "photos" stTwo rowBadDate).1.stats.errors
        = stTwo.stats.errors ∧
    (processRow false "photos" stTwo (mkRow "zz.jpg" "3")).1.stats.errors
        = stTwo.stats.errors ∧
    set_file_timestamps false stTwo "photos/zz.jpg" (some sampleDate)
        = (false, addError stTwo
            ("Failed to set timestamp for photos/zz.jpg")) :=
  ⟨error_log_routing_and_summary.1 false "photos" stTwo rowBadDate
     ⟨"a.jpg", "ck", false, false, false, none, 3⟩
     ["ERROR: Error parsing date baddate"] ⟨1, 3, none⟩
     (by decide) (by decide) (by decide),
   error_log_routing_and_summary.2.1 false "photos" stTwo (mkRow "zz.jpg" "3")
     ⟨"zz.jpg", "ck", false, false, false, some sampleDate, 3⟩ []
     (by decide) (by decide),
   error_log_routing_and_summary.2.2.2.1 stTwo "photos/zz.jpg" sampleDate
     (by decide)⟩

/-! ### Dry-run frame and counter equality (claim C3)

The dry run and the real run are related step by step: starting from
states that agree on statistics, catalog, duplicate map and file-system
shape (`Sim`), one row keeps them agreeing, because the real run's only
mutation during ingestion — `os.utime` — changes a file's timestamp but
not its existence, content or `st_size`, which is all the control flow
ever reads. -/

theorem fsSim_refl (fs : FS) : FsSim fs fs := fun _ => rfl

theorem sim_refl (st : RunState) : Sim st st := ⟨rfl, rfl, rfl, fsSim_refl st.fs⟩

theorem fsSim_trans {a b c : FS} (h1 : FsSim a b) (h2 : FsSim b c) :
    FsSim a c := fun p => (h1 p).trans (h2 p)

theorem fsSim_none {a b : FS} (h : FsSim a b) {p : String} (hp : a p = none) :
    b p = none := by
  have hh := h p
  rw [hp] at hh
  cases hb : b p with
  | none => rfl
  | some w => rw [hb] at hh; exact absurd hh (by simp)

theorem fsSim_some {a b : FS} (h : FsSim a b) {p : String} {v : FileVal}
    (hp : a p = some v) :
    ∃ w, b p = some w ∧ w.content = v.content ∧ w.size = v.size := by
  have hh := h p
  rw [hp] at hh
  cases hb : b p with
  | none => rw [hb] at hh; exact absurd hh (by simp)
  | some w =>
      rw [hb] at hh
      simp only [Option.map_some'] at hh
      injection hh with h1
      exact ⟨w, rfl, (congrArg Prod.fst h1).symm, (congrArg Prod.snd h1).symm⟩

theorem fsUtime_shape {fs fs' : FS} {p : String} {d : PDate}
    (h : fsUtime fs p d = some fs') : FsSim fs' fs := by
  unfold fsUtime at h
  cases hv : fs p with
  | none => rw [hv] at h; exact absurd h (by simp)
  | some v =>
      rw [hv] at h
      injection h with h1
      subst h1
      intro q
      unfold fsSet
      by_cases hq : q = p
      · rw [if_pos hq, hq, hv]; rfl
      · rw [if_neg hq]

theorem set_file_timestamps_sim {st st' : RunState} (hsim : Sim st st')
    (p : String) (cd : Option PDate) (hp : (st'.fs p).isSome) :
    (set_file_timestamps true st p cd).1
      = (set_file_timestamps false st' p cd).1 ∧
    Sim (set_file_timestamps true st p cd).2
        (set_file_timestamps false st' p cd).2 ∧
    (set_file_timestamps true st p cd).2.fs = st.fs := by
  obtain ⟨hs, hd, hpf, hfs⟩ := hsim
  cases cd with
  | none => exact ⟨rfl, ⟨hs, hd, hpf, hfs⟩, rfl⟩
  | some d =>
      cases hv : st'.fs p with
      | none => rw [hv] at hp; exact absurd hp (by simp)
      | some v =>
          have hut : fsUtime st'.fs p d
              = some (fsSet st'.fs p { v with mtime := some d }) := by
            unfold fsUtime; rw [hv]
          have hreal : set_file_timestamps false st' p (some d)
              = (true, addLog { st' with
                    fs := fsSet st'.fs p { v with mtime := some d } }
                  ("INFO: Fixed timestamp for " ++ baseName p)) := by
            simp [set_file_timestamps, hut]
          rw [hreal]
          refine ⟨rfl, ⟨hs, hd, hpf, ?_⟩, rfl⟩
          exact fsSim_trans hfs (fun q => (fsUtime_shape hut q).symm)

theorem fixRowTimestamp_sim {st st' : RunState} (hsim : Sim st st')
    (p : String) (od : Option PDate) (hp : (st'.fs p).isSome) :
    Sim (fixRowTimestamp true st p od) (fixRowTimestamp false st' p od) ∧
    (fixRowTimestamp true st p od).fs = st.fs := by
  cases od with
  | none => exact ⟨hsim, rfl⟩
  | some d =>
      obtain ⟨hb, hsim2, hfs⟩ := set_file_timestamps_sim hsim p (some d) hp
      obtain ⟨hs, hd2, hpf, hfs2⟩ := hsim2
      have h1 : fixRowTimestamp true st p (some d)
          = (if (set_file_timestamps true st p (some d)).1
             then { (set_file_timestamps true st p (some d)).2 with
                    stats := bumpTimestampsFixed
                      (set_file_timestamps true st p (some d)).2.stats }
             else (set_file_timestamps true st p (some d)).2) := rfl
      have h2 : fixRowTimestamp false st' p (some d)
          = (if (set_file_timestamps false st' p (some d)).1
             then { (set_file_timestamps false st' p (some d)).2 with
                    stats := bumpTimestampsFixed
                      (set_file_timestamps false st' p (some d)).2.stats }
             else (set_file_timestamps false st' p (some d)).2) := rfl
      rw [h1, h2, ← hb]
      by_cases hbv : (set_file_timestamps true st p (some d)).1 = true
      · rw [if_pos hbv, if_pos hbv]
        exact ⟨⟨by rw [hs], hd2, hpf, hfs2⟩, hfs⟩
      · rw [if_neg hbv, if_neg hbv]
        exact ⟨⟨hs, hd2, hpf, hfs2⟩, hfs⟩

theorem processRowWith_sim {st st' : RunState} (hsim : Sim st st')
    (dir : String) (rd : RowData) :
    Sim (processRowWith true dir st rd) (processRowWith false dir st' rd) ∧
    (processRowWith true dir st rd).fs = st.fs := by
  obtain ⟨hs, hd, hpf, hfs⟩ := hsim
  simp only [processRowWith]
  cases hv : st.fs (dir ++ "/" ++ rd.img_name) with
  | none =>
      rw [fsSim_none hfs hv]
      exact ⟨⟨hs, hd, hpf, hfs⟩, rfl⟩
  | some v =>
      obtain ⟨w, hw, hwc, hws⟩ := fsSim_some hfs hv
      rw [hw]
      have hfi : mkFileInfo dir rd v = mkFileInfo dir rd w := by
        unfold mkFileInfo; rw [hws]
      have hcatsim : Sim (catalogEntry st (mkFileInfo dir rd v))
          (catalogEntry st' (mkFileInfo dir rd w)) := by
        unfold catalogEntry
        rw [← hfi]
        exact ⟨by rw [hs], by rw [hd], by rw [hpf], hfs⟩
      have hp2 : ((catalogEntry st' (mkFileInfo dir rd w)).fs
          (dir ++ "/" ++ rd.img_name)).isSome := by
        show (st'.fs (dir ++ "/" ++ rd.img_name)).isSome
        rw [hw]; rfl
      exact fixRowTimestamp_sim hcatsim (dir ++ "/" ++ rd.img_name)
        rd.original_date hp2

theorem processRow_sim {st st' : RunState} (hsim : Sim st st')
    (dir : String) (row : Row) :
    (processRow true dir st row).2 = (processRow false dir st' row).2 ∧
    Sim (processRow true dir st row).1 (processRow false dir st' row).1 ∧
    (processRow true dir st row).1.fs = st.fs := by
  obtain ⟨hs, hd, hpf, hfs⟩ := hsim
  simp only [processRow]
  cases hex : (extractRow row).1 with
  | error e =>
      exact ⟨rfl, ⟨hs, hd, hpf, hfs⟩, rfl⟩
  | ok rd =>
      have hsim2 : Sim ({ st with log := st.log ++ (extractRow row).2 })
          ({ st' with log := st'.log ++ (extractRow row).2 }) :=
        ⟨hs, hd, hpf, hfs⟩
      obtain ⟨h1, h2⟩ := processRowWith_sim hsim2 dir rd
      exact ⟨rfl, h1, h2⟩

theorem addError_sim {st st' : RunState} (hsim : Sim st st') (msg : String) :
    Sim (addError st msg) (addError st' msg) := by
  obtain ⟨hs, hd, hpf, hfs⟩ := hsim
  exact ⟨by unfold addError; rw [hs], hd, hpf, hfs⟩

theorem processRowsGo_sim {st st' : RunState} (hsim : Sim st st')
    (csvp dir : String) (rows : List Row) :
    Sim (processRowsGo true csvp dir rows st)
        (processRowsGo false csvp dir rows st') ∧
    (processRowsGo true csvp dir rows st).fs = st.fs := by
  induction rows generalizing st st' with
  | nil => exact ⟨hsim, rfl⟩
  | cons r rest ih =>
      obtain ⟨ho, hsim2, hfs2⟩ := processRow_sim hsim dir r
      unfold processRowsGo
      cases hp1 : processRow true dir st r with
      | mk a oe =>
          cases hp2 : processRow false dir st' r with
          | mk b oe' =>
              rw [hp1, hp2] at ho hsim2
              rw [hp1] at hfs2
              subst ho
              cases oe with
              | none =>
                  obtain ⟨g1, g2⟩ := ih hsim2
                  exact ⟨g1, by rw [g2]; exact hfs2⟩
              | some e =>
                  refine ⟨addError_sim hsim2 _, ?_⟩
                  show (addError a _).fs = st.fs
                  exact hfs2

theorem processCsvFile_sim {st st' : RunState} (hsim : Sim st st')
    (csvp : String) (content : Except String (List Row)) (dir : String) :
    Sim (processCsvFile true csvp content dir st)
        (processCsvFile false csvp content dir st') ∧
    (processCsvFile true csvp content dir st).fs = st.fs := by
  unfold processCsvFile
  have hsim2 : Sim (addLog st ("INFO: Processing CSV: " ++ csvp))
      (addLog st' ("INFO: Processing CSV: " ++ csvp)) := by
    obtain ⟨hs, hd, hpf, hfs⟩ := hsim
    exact ⟨hs, hd, hpf, hfs⟩
  cases content with
  | error e =>
      refine ⟨addError_sim hsim2 _, rfl⟩
  | ok rows =>
      exact processRowsGo_sim hsim2 csvp dir rows

theorem organizeGo_dry (odir : String) (l : List FileInfo) (st : RunState) :
    (organizeGo true odir l st).map RunState.fs = some st.fs ∧
    (organizeGo true odir l st).map RunState.stats = some st.stats := by
  induction l generalizing st with
  | nil => exact ⟨rfl, rfl⟩
  | cons fi rest ih =>
      unfold organizeGo
      cases fi.original_date with
      | none => exact ih st
      | some d => exact ih _

/-- **C3**: a dry run mutates no file (`process_csv_file` leaves the file
system untouched, the Organizer copies nothing, the Report Generator
writes no JSON file), while statistics — every counter and even the
error list — end up exactly as in the non-simulate run on the same
inputs.  (For the real run the model's `os.utime` succeeds on every
existing file; environment-only failures such as permission errors are
outside the model.) -/
theorem dry_run_no_mutation_same_counters :
    ∀ (csvp : String) (content : Except String (List Row))
      (dir odir rdir : String) (st : RunState),
      (processCsvFile true csvp content dir st).fs = st.fs ∧
      (processCsvFile true csvp content dir st).stats
        = (processCsvFile false csvp content dir st).stats ∧
      (processCsvFile true csvp content dir st).processed_files
        = (processCsvFile false csvp content dir st).processed_files ∧
      (organize_by_date true odir st).map RunState.fs = some st.fs ∧
      (organize_by_date true odir st).map RunState.stats = some st.stats ∧
      (generate_reports true rdir st).2 = [] ∧
      (generate_reports true rdir st).1.stats
        = (generate_reports false rdir st).1.stats := by
  intro csvp content dir odir rdir st
  obtain ⟨⟨hs, hd, hpf, hfs⟩, hdryfs⟩ :=
    processCsvFile_sim (sim_refl st) csvp content dir
  refine ⟨hdryfs, hs, hpf, ?_, ?_, ?_, ?_⟩
  · exact (organizeGo_dry odir st.processed_files _).1
  · exact (organizeGo_dry odir st.processed_files _).2
  · simp [generate_reports]
  · rfl

/-! ### The Organizer (claim C7) -/

/-- **C7 counterexample**: `organize_by_date` does not leave every source
file untouched: in `stOrg`, entry `fiOrgB`'s source path
`out/2023/01/a.jpg` is exactly the copy target of entry `fiOrgA`, so the
run overwrites that source file (content 2 becomes content 1), refuting
the claim as stated.  (The amended theorem below recovers the claim when
no source path lies among the targets.) -/
theorem organize_overwrites_source_cex :
    "out/2023/01/a.jpg" ∈ stOrg.processed_files.map FileInfo.path ∧
    stOrg.fs "out/2023/01/a.jpg" = some ⟨2, 7, none⟩ ∧
    (organize_by_date false "out" stOrg).map
        (fun s => s.fs "out/2023/01/a.jpg")
      = some (some ⟨1, 5, none⟩) := by
  decide

theorem applyWrites_lookup (W : List (String × FileVal)) (fs : FS)
    (p : String) :
    applyWrites fs W p
      = match lastVal W p with
        | some v => some v
        | none => fs p := by
  induction W generalizing fs with
  | nil => rfl
  | cons w rest ih =>
      have hstep : applyWrites fs (w :: rest) = applyWrites (fsSet fs w.1 w.2) rest := rfl
      rw [hstep, ih]
      have hlast : lastVal (w :: rest) p
          = match lastVal rest p with
            | some v => some v
            | none => if p = w.1 then some w.2 else none := rfl
      rw [hlast]
      cases lastVal rest p with
      | some v => rfl
      | none =>
          unfold fsSet
          by_cases hq : p = w.1
          · rw [if_pos hq, if_pos hq]
          · rw [if_neg hq, if_neg hq]

theorem applyWrites_idem (W : List (String × FileVal)) (fs : FS) :
    applyWrites (applyWrites fs W) W = applyWrites fs W := by
  funext p
  rw [applyWrites_lookup, applyWrites_lookup]
  cases h : lastVal W p with
  | some v => rfl
  | none => rfl

theorem lastVal_eq_none_iff (W : List (String × FileVal)) (p : String) :
    lastVal W p = none ↔ p ∉ W.map Prod.fst := by
  induction W with
  | nil => simp [lastVal]
  | cons w rest ih =>
      have hlast : lastVal (w :: rest) p
          = match lastVal rest p with
            | some v => some v
            | none => if p = w.1 then some w.2 else none := rfl
      rw [hlast]
      cases h : lastVal rest p with
      | some v =>
          simp only [List.map_cons, List.mem_cons]
          constructor
          · intro hc; exact absurd hc (by simp)
          · intro hc
            exfalso
            apply hc
            right
            by_contra hpc
            have hnone := ih.2 hpc
            rw [h] at hnone
            exact Option.noConfusion hnone
      | none =>
          rw [h] at ih
          simp only [List.map_cons, List.mem_cons]
          by_cases hq : p = w.1
          · simp [hq]
          · simp [hq, ih.1 rfl]

theorem orgTargets_cons (odir : String) (fi : FileInfo) (l : List FileInfo) :
    orgTargets odir (fi :: l)
      = match fi.original_date with
        | some d => targetPath odir d fi.name :: orgTargets odir l
        | none => orgTargets odir l := by
  cases h : fi.original_date <;> simp [orgTargets, List.filterMap_cons, h]

theorem writeList_cons (fs : FS) (odir : String) (fi : FileInfo)
    (l : List FileInfo) :
    writeList fs odir (fi :: l)
      = match fi.original_date, fs fi.path with
        | some d, some v => (targetPath odir d fi.name, v) :: writeList fs odir l
        | some _, none => writeList fs odir l
        | none, _ => writeList fs odir l := by
  cases hd : fi.original_date <;> cases hv : fs fi.path <;>
    simp [writeList, List.filterMap_cons, hd, hv]

theorem writeList_congr (fs fs' : FS) (odir : String) (l : List FileInfo)
    (h : ∀ fi ∈ l, fs' fi.path = fs fi.path) :
    writeList fs' odir l = writeList fs odir l := by
  induction l with
  | nil => rfl
  | cons fi rest ih =>
      have hfi : fs' fi.path = fs fi.path := h fi (List.mem_cons_self fi rest)
      have hrest := ih (fun fj hj => h fj (List.mem_cons_of_mem fi hj))
      rw [writeList_cons, writeList_cons, hfi, hrest]

theorem writeList_keys_subset (fs : FS) (odir : String) (l : List FileInfo)
    (p : String) (h : p ∈ (writeList fs odir l).map Prod.fst) :
    p ∈ orgTargets odir l := by
  induction l with
  | nil => simp [writeList] at h
  | cons fi rest ih =>
      rw [writeList_cons] at h
      rw [orgTargets_cons]
      cases hd : fi.original_date with
      | none => rw [hd] at h; exact ih h
      | some d =>
          rw [hd] at h
          cases hv : fs fi.path with
          | none => rw [hv] at h; exact List.mem_cons.2 (Or.inr (ih h))
          | some v =>
              rw [hv] at h
              rcases List.mem_cons.1 h with h | h
              · exact List.mem_cons.2 (Or.inl h)
              · exact List.mem_cons.2 (Or.inr (ih h))

theorem orgTargets_subset_keys (fs : FS) (odir : String) (l : List FileInfo)
    (hsrc : ∀ fi ∈ l, fi.original_date.isSome → (fs fi.path).isSome)
    (t : String) (h : t ∈ orgTargets odir l) :
    t ∈ (writeList fs odir l).map Prod.fst := by
  induction l with
  | nil => simp [orgTargets] at h
  | cons fi rest ih =>
      have ih' := ih (fun fj hj => hsrc fj (List.mem_cons_of_mem fi hj))
      rw [orgTargets_cons] at h
      rw [writeList_cons]
      cases hd : fi.original_date with
      | none => rw [hd] at h; exact ih' h
      | some d =>
          rw [hd] at h
          have hv : (fs fi.path).isSome :=
            hsrc fi (List.mem_cons_self fi rest) (by rw [hd]; rfl)
          cases hfv : fs fi.path with
          | none => rw [hfv] at hv; exact absurd hv (by simp)
          | some v =>
              rcases List.mem_cons.1 h with h | h
              · rw [h]; exact List.mem_cons.2 (Or.inl rfl)
              · exact List.mem_cons.2 (Or.inr (ih' h))

theorem organizeGo_spec (odir : String) (l : List FileInfo) (st : RunState)
    (tset : List String)
    (hsub : ∀ t ∈ orgTargets odir l, t ∈ tset)
    (hsrc : ∀ fi ∈ l, fi.original_date.isSome → (st.fs fi.path).isSome)
    (hdisj : ∀ fi ∈ l, fi.path ∉ tset) :
    ∃ st1, organizeGo false odir l st = some st1 ∧
      st1.fs = applyWrites st.fs (writeList st.fs odir l) ∧
      st1.processed_files = st.processed_files ∧
      st1.stats = st.stats := by
  induction l generalizing st with
  | nil => exact ⟨st, rfl, rfl, rfl, rfl⟩
  | cons fi rest ih =>
      cases hd : fi.original_date with
      | none =>
          have hgo : organizeGo false odir (fi :: rest) st
              = organizeGo false odir rest st := by
            simp [organizeGo, hd]
          rw [hgo]
          obtain ⟨st1, h1, h2, h3, h4⟩ := ih st
            (fun t ht => hsub t (by rw [orgTargets_cons, hd]; exact ht))
            (fun fj hj => hsrc fj (List.mem_cons_of_mem fi hj))
            (fun fj hj => hdisj fj (List.mem_cons_of_mem fi hj))
          refine ⟨st1, h1, ?_, h3, h4⟩
          rw [h2, writeList_cons, hd]
      | some d =>
          have hv : (st.fs fi.path).isSome :=
            hsrc fi (List.mem_cons_self fi rest) (by rw [hd]; rfl)
          cases hfv : st.fs fi.path with
          | none => rw [hfv] at hv; exact absurd hv (by simp)
          | some v =>
              have hcopy : fsCopy st.fs fi.path (targetPath odir d fi.name)
                  = some (fsSet st.fs (targetPath odir d fi.name) v) := by
                unfold fsCopy; rw [hfv]
              have hgo : organizeGo false odir (fi :: rest) st
                  = match fsCopy st.fs fi.path (targetPath odir d fi.name) with
                    | none => none
                    | some fs' =>
                        organizeGo false odir rest
                          (addLog { st with fs := fs' }
                            ("INFO: Copied " ++ fi.name ++ " to "
                              ++ yearMonth d ++ "/")) := by
                simp [organizeGo, hd]
              rw [hgo, hcopy]
              set st' : RunState :=
                addLog { st with fs := fsSet st.fs (targetPath odir d fi.name) v }
                  ("INFO: Copied " ++ fi.name ++ " to " ++ yearMonth d ++ "/")
                with hst'
              have htgt : targetPath odir d fi.name ∈ tset :=
                hsub _ (by rw [orgTargets_cons, hd]; exact List.mem_cons_self _ _)
              have hagree : ∀ fj ∈ rest, st'.fs fj.path = st.fs fj.path := by
                intro fj hj
                show fsSet st.fs (targetPath odir d fi.name) v fj.path = st.fs fj.path
                unfold fsSet
                rw [if_neg (by
                  intro hc
                  exact hdisj fj (List.mem_cons_of_mem fi hj) (hc ▸ htgt))]
              obtain ⟨st1, h1, h2, h3, h4⟩ := ih st'
                (fun t ht => hsub t (by
                  rw [orgTargets_cons, hd]
                  exact List.mem_cons.2 (Or.inr ht)))
                (fun fj hj hdj => by
                  rw [hagree fj hj]
                  exact hsrc fj (List.mem_cons_of_mem fi hj) hdj)
                (fun fj hj => hdisj fj (List.mem_cons_of_mem fi hj))
              refine ⟨st1, h1, ?_, h3, h4⟩
              rw [h2, writeList_congr st.fs st'.fs odir rest hagree]
              rw [writeList_cons, hd, hfv]
              rfl

/-- **C7 amended**: provided no catalogued source path coincides with any
copy target (e.g. the output root is disjoint from the photo
directories), the Organizer copies every dated entry to
`outputRoot/year/month/name`, silently skips undated entries, touches
nothing outside the target set — in particular every source file — and a
second run against the same output root changes nothing (identical file
contents everywhere, so in particular at `year/month/name`). -/
theorem organize_copy_idempotent_when_disjoint :
    ∀ (odir : String) (st : RunState),
    (∀ fi ∈ st.processed_files,
       fi.original_date.isSome → (st.fs fi.path).isSome) →
    (∀ fi ∈ st.processed_files,
       fi.path ∉ orgTargets odir st.processed_files) →
    ∃ st1, organize_by_date false odir st = some st1 ∧
      st1.processed_files = st.processed_files ∧
      (∀ p, p ∉ orgTargets odir st.processed_files → st1.fs p = st.fs p) ∧
      (∀ t ∈ orgTargets odir st.processed_files, (st1.fs t).isSome) ∧
      ∃ st2, organize_by_date false odir st1 = some st2 ∧
        st2.fs = st1.fs := by
  intro odir st hsrc hdisj
  have hlog : (addLog st ("INFO: Organizing files by date in " ++ odir)).fs
      = st.fs := rfl
  obtain ⟨st1, h1, h2, h3, h4⟩ :=
    organizeGo_spec odir st.processed_files
      (addLog st ("INFO: Organizing files by date in " ++ odir))
      (orgTargets odir st.processed_files) (fun t ht => ht) hsrc hdisj
  rw [hlog] at h2
  have horg : organize_by_date false odir st = some st1 := h1
  have hframe : ∀ p, p ∉ orgTargets odir st.processed_files →
      st1.fs p = st.fs p := by
    intro p hp
    rw [h2, applyWrites_lookup]
    cases hl : lastVal (writeList st.fs odir st.processed_files) p with
    | none => rfl
    | some v =>
        exfalso
        apply hp
        apply writeList_keys_subset st.fs odir st.processed_files p
        by_contra hk
        rw [← lastVal_eq_none_iff] at hk
        · rw [hl] at hk; exact Option.noConfusion hk
  have htgt : ∀ t ∈ orgTargets odir st.processed_files, (st1.fs t).isSome := by
    intro t ht
    rw [h2, applyWrites_lookup]
    cases hl : lastVal (writeList st.fs odir st.processed_files) t with
    | some v => rfl
    | none =>
        exfalso
        have := (lastVal_eq_none_iff _ t).1 hl
        exact this (orgTargets_subset_keys st.fs odir st.processed_files hsrc t ht)
  refine ⟨st1, horg, h3, hframe, htgt, ?_⟩
  have hsrc1 : ∀ fi ∈ st1.processed_files,
      fi.original_date.isSome → (st1.fs fi.path).isSome := by
    intro fi hfi hdd
    rw [h3] at hfi
    rw [hframe fi.path (hdisj fi hfi)]
    exact hsrc fi hfi hdd
  have hdisj1 : ∀ fi ∈ st1.processed_files,
      fi.path ∉ orgTargets odir st1.processed_files := by
    intro fi hfi
    rw [h3] at hfi ⊢
    exact hdisj fi hfi
  obtain ⟨st2, g1, g2, g3, g4⟩ :=
    organizeGo_spec odir st1.processed_files
      (addLog st1 ("INFO: Organizing files by date in " ++ odir))
      (orgTargets odir st1.processed_files) (fun t ht => ht) hsrc1 hdisj1
  refine ⟨st2, g1, ?_⟩
  have hagree : ∀ fi ∈ st1.processed_files, st1.fs fi.path = st.fs fi.path := by
    intro fi hfi
    rw [h3] at hfi
    exact hframe fi.path (hdisj fi hfi)
  have hwl : writeList st1.fs odir st1.processed_files
      = writeList st.fs odir st.processed_files := by
    rw [h3]
    exact writeList_congr st.fs st1.fs odir st.processed_files
      (fun fi hfi => hagree fi (h3 ▸ hfi))
  rw [g2]
  show applyWrites st1.fs (writeList st1.fs odir st1.processed_files) = st1.fs
  rw [hwl, h2, applyWrites_idem]

/-- Witness for C7 (amended): one dated entry whose source lies outside
the output tree. -/
theorem organize_copy_idempotent_witness :
    (∀ fi ∈ stOrgOk.processed_files,
       fi.original_date.isSome → (stOrgOk.fs fi.path).isSome) ∧
    (∀ fi ∈ stOrgOk.processed_files,
       fi.path ∉ orgTargets "out" stOrgOk.processed_files) ∧
    ∃ st1, organize_by_date false "out" stOrgOk = some st1 ∧
      st1.processed_files = stOrgOk.processed_files ∧
      (∀ p, p ∉ orgTargets "out" stOrgOk.processed_files →
        st1.fs p = stOrgOk.fs p) ∧
      (∀ t ∈ orgTargets "out" stOrgOk.processed_files, (st1.fs t).isSome) ∧
      ∃ st2, organize_by_date false "out" st1 = some st2 ∧ st2.fs = st1.fs :=
  ⟨by decide, by decide,
   organize_copy_idempotent_when_disjoint "out" stOrgOk (by decide) (by decide)⟩

/-! ### Exit codes of `main` (claim C9) -/

theorem find_duplicates_frame (st : RunState) :
    (find_duplicates st).2.fs = st.fs ∧
    (find_duplicates st).2.processed_files = st.processed_files := by
  unfold find_duplicates
  dsimp only
  split <;> exact ⟨rfl, rfl⟩

theorem generate_reports_frame (dry : Bool) (rdir : String) (st : RunState) :
    (generate_reports dry rdir st).1.fs = st.fs ∧
    (generate_reports dry rdir st).1.processed_files = st.processed_files := by
  obtain ⟨h1, h2⟩ := find_duplicates_frame st
  unfold generate_reports
  dsimp only
  exact ⟨h1, h2⟩

theorem organizeGo_total (dry : Bool) (odir : String) (l : List FileInfo) :
    ∀ st : RunState, (∀ fi ∈ l, (st.fs fi.path).isSome) →
    ∃ st', organizeGo dry odir l st = some st' := by
  induction l with
  | nil => exact fun st _ => ⟨st, rfl⟩
  | cons fi rest ih =>
      intro st h
      have htail : ∀ fj ∈ rest, (st.fs fj.path).isSome :=
        fun fj hj => h fj (List.mem_cons_of_mem fi hj)
      cases hd : fi.original_date with
      | none =>
          have hgo : organizeGo dry odir (fi :: rest) st
              = organizeGo dry odir rest st := by simp [organizeGo, hd]
          rw [hgo]
          exact ih st htail
      | some d =>
          by_cases hdry : dry = true
          · subst hdry
            have hgo : organizeGo true odir (fi :: rest) st
                = organizeGo true odir rest
                    (addLog st ("INFO: DRY RUN: Would move " ++ fi.path ++ " to "
                      ++ targetPath odir d fi.name)) := by
              simp [organizeGo, hd]
            rw [hgo]
            exact ih _ htail
          · have hdry' : dry = false := by
              cases dry
              · rfl
              · exact absurd rfl hdry
            subst hdry'
            have hv : (st.fs fi.path).isSome := h fi (List.mem_cons_self fi rest)
            cases hfv : st.fs fi.path with
            | none => rw [hfv] at hv; exact absurd hv (by simp)
            | some v =>
                have hcopy : fsCopy st.fs fi.path (targetPath odir d fi.name)
                    = some (fsSet st.fs (targetPath odir d fi.name) v) := by
                  unfold fsCopy; rw [hfv]
                have hgo : organizeGo false odir (fi :: rest) st
                    = organizeGo false odir rest
                        (addLog { st with
                            fs := fsSet st.fs (targetPath odir d fi.name) v }
                          ("INFO: Copied " ++ fi.name ++ " to "
                            ++ yearMonth d ++ "/")) := by
                  simp [organizeGo, hd, hcopy]
                rw [hgo]
                refine ih _ ?_
                intro fj hj
                exact fsSet_isSome st.fs (targetPath odir d fi.name) v fj.path
                  (htail fj hj)

theorem organize_by_date_total (dry : Bool) (odir : String) (st : RunState)
    (h : CatalogSourcesExist st) :
    ∃ st', organize_by_date dry odir st = some st' := by
  unfold organize_by_date
  exact organizeGo_total dry odir st.processed_files _ h

theorem mainFinish_exit (args : Args) (st : RunState)
    (h : CatalogSourcesExist st) : (mainFinish args st).1 = 0 := by
  unfold mainFinish
  have key : ∀ st2 : RunState, CatalogSourcesExist st2 →
      (match args.organize with
        | none => ((0 : Nat), some st2)
        | some odir =>
            match organize_by_date args.dry_run odir st2 with
            | some st' => ((0 : Nat), some st')
            | none => ((1 : Nat), (none : Option RunState))).1 = 0 := by
    intro st2 h2
    cases args.organize with
    | none => rfl
    | some odir =>
        dsimp only
        obtain ⟨st', hst'⟩ := organize_by_date_total args.dry_run odir st2 h2
        rw [hst']
  cases hr : args.reports with
  | none => exact key st h
  | some rdir =>
      refine key _ ?_
      obtain ⟨h1, h2⟩ := generate_reports_frame args.dry_run rdir st
      intro fi hfi
      rw [h2] at hfi
      rw [h1]
      exact h fi hfi

theorem foldl_processCsv_sources (dry : Bool) (dirp : String)
    (files : List (String × Except String (List Row))) :
    ∀ st : RunState, CatalogSourcesExist st →
      CatalogSourcesExist
        (files.foldl (fun st pc => processCsvFile dry pc.1 pc.2 dirp st) st) := by
  induction files with
  | nil => exact fun st h => h
  | cons f rest ih =>
      intro st h
      exact ih _ (processCsvFile_sources dry f.1 f.2 dirp st h).1

theorem processDirectory_sources (dry : Bool) (d : DirEntry) (st : RunState)
    (h : CatalogSourcesExist st) :
    CatalogSourcesExist (processDirectory dry d st) := by
  unfold processDirectory
  split
  · exact h
  · split
    · exact h
    · exact foldl_processCsv_sources dry (d.name ++ "/Photos") d.csvFiles st h

theorem foldl_processDirectory_sources (dry : Bool) (dirs : List DirEntry) :
    ∀ st : RunState, CatalogSourcesExist st →
      CatalogSourcesExist
        (dirs.foldl (fun st d => processDirectory dry d st) st) := by
  induction dirs with
  | nil => exact fun st h => h
  | cons d rest ih =>
      intro st h
      exact ih _ (processDirectory_sources dry d st h)

theorem process_all_directories_sources (dry : Bool) (items : List DirEntry)
    (st : RunState) (h : CatalogSourcesExist st) :
    CatalogSourcesExist (process_all_directories dry items st) := by
  unfold process_all_directories
  exact foldl_processDirectory_sources dry _ _ h

/-- **C9**: `main` exits nonzero exactly when the positional path does
not exist, or — in single-directory mode — when the `Photos`
subdirectory or the matching CSV files are absent; in every other run it
exits zero (and the exit status is always 0 or 1), no matter how many
per-row or per-file errors the CSV contents produce. -/
theorem main_exit_nonzero_iff :
    ∀ (args : Args) (env : Env),
      ((mainRun args env).1 ≠ 0 ↔
        (env.pathExists = false ∨
          (args.single_dir = true ∧
            (env.photosDirExists = false ∨ env.csvFiles = [])))) ∧
      ((mainRun args env).1 = 0 ∨ (mainRun args env).1 = 1) := by
  intro args env
  by_cases hpe : env.pathExists = true
  · by_cases hsd : args.single_dir = true
    · by_cases hph : env.photosDirExists = true
      · by_cases hcf : env.csvFiles.isEmpty = true
        · have hmain : (mainRun args env).1 = 1 := by
            unfold mainRun
            rw [if_neg (by simp [hpe]), if_pos hsd, if_neg (by simp [hph]),
              if_pos hcf]
          rw [hmain]
          constructor
          · constructor
            · intro _
              exact Or.inr ⟨hsd, Or.inr (List.isEmpty_iff.1 hcf)⟩
            · intro _; omega
          · exact Or.inr rfl
        · have hzero : (mainRun args env).1 = 0 := by
            unfold mainRun
            rw [if_neg (by simp [hpe]), if_pos hsd, if_neg (by simp [hph]),
              if_neg hcf]
            apply mainFinish_exit
            show CatalogSourcesExist (print_summary _)
            have hinv : CatalogSourcesExist (initState env.fs) := by
              intro fi hfi
              exact absurd hfi (by simp [initState])
            exact (foldl_processCsv_sources args.dry_run _ env.csvFiles _ hinv :)
          rw [hzero]
          constructor
          · constructor
            · intro hc; exact absurd rfl hc
            · rintro (hc | ⟨_, (hc | hc)⟩)
              · rw [hpe] at hc; exact Bool.noConfusion hc
              · rw [hph] at hc; exact Bool.noConfusion hc
              · rw [hc] at hcf; exact absurd rfl hcf
          · exact Or.inl rfl
      · have hph' : env.photosDirExists = false := by
          cases h : env.photosDirExists
          · rfl
          · exact absurd h hph
        have hmain : (mainRun args env).1 = 1 := by
          unfold mainRun
          rw [if_neg (by simp [hpe]), if_pos hsd, if_pos (by simp [hph'])]
        rw [hmain]
        constructor
        · constructor
          · intro _; exact Or.inr ⟨hsd, Or.inl hph'⟩
          · intro _; omega
        · exact Or.inr rfl
    · have hsd' : args.single_dir = false := by
        cases h : args.single_dir
        · rfl
        · exact absurd h hsd
      have hzero : (mainRun args env).1 = 0 := by
        unfold mainRun
        rw [if_neg (by simp [hpe]), if_neg (by simp [hsd'])]
        apply mainFinish_exit
        apply process_all_directories_sources
        intro fi hfi
        exact absurd hfi (by simp [initState])
      rw [hzero]
      constructor
      · constructor
        · intro hc; exact absurd rfl hc
        · rintro (hc | ⟨hc, _⟩)
          · rw [hpe] at hc; exact Bool.noConfusion hc
          · rw [hsd'] at hc; exact Bool.noConfusion hc
      · exact Or.inl rfl
  · have hpe' : env.pathExists = false := by
      cases h : env.pathExists
      · rfl
      · exact absurd h hpe
    have hmain : (mainRun args env).1 = 1 := by
      unfold mainRun
      rw [if_pos (by simp [hpe'])]
    rw [hmain]
    constructor
    · constructor
      · intro _; exact Or.inl hpe'
      · intro _; omega
    · exact Or.inr rfl

/-- Witness for C10 at a concrete state and row list. -/
theorem counters_bounded_witness :
    CountersBounded stTwo.stats ∧
    CountersBounded
      (processRowsGo false "pd.csv" "photos" [mkRow "a.jpg" "3", rowGoodB]
        stTwo).stats :=
  ⟨by decide,
   counters_bounded_by_files_processed.2.1 false "pd.csv" "photos"
     [mkRow "a.jpg" "3", rowGoodB] stTwo (by decide)⟩

end FixPhoto
